import Mathlib

/-!
The dnscrypt-proxy padding codec, query encryptor and response decryptor.

Shallow embedding of `dnscrypt-proxy/crypto.go`.

* Byte slices are `List Byte`; a nil slice and an empty slice are both `[]`,
  and the capacity of a slice is taken equal to its length.
* Go's `([]byte, error)` results are pairs `List Byte × Option Err`
  (`none` is a nil error).
* Go `int` values are `Int`. Sums of slice lengths, of the size constants and
  of one byte are far below `2^63` for every slice that fits in memory and are
  computed exactly; the estimator's value is an arbitrary `int`, so the one
  addition it reaches (`+ 63`) wraps to 64 bits, and `&` works on the 64-bit
  two's-complement representation.
* `crypto/rand` is a stream of bytes `Nat → Byte` consumed in order.
* A runtime panic (slice bounds out of range) is `none` in `Option`.
-/

namespace DNSCrypt

/-- One octet. -/
abbrev Byte := UInt8

/-- The values built by `errors.New` in crypto.go, one constructor per message. -/
inductive Err where
  /-- Message "Invalid padding (short packet)" (crypto.go:29). -/
  | invalidPaddingShortPacket
  /-- Message "Invalid padding (delimiter not found)" (crypto.go:35). -/
  | invalidPaddingDelimiterNotFound
  /-- Message "Question too large; cannot be padded" (crypto.go:54). -/
  | questionTooLarge
  /-- Message "Invalid message size or prefix" (crypto.go:69). -/
  | invalidMessageSizeOrPrefix
  /-- Message "Unexpected nonce" (crypto.go:73). -/
  | unexpectedNonce
  /-- Message "Incorrect tag" (crypto.go:77). -/
  | incorrectTag
  /-- Message "Incorrect padding" (crypto.go:81). -/
  | incorrectPadding
  deriving DecidableEq, Repr

/-- The text given to `errors.New` for each error. -/
def Err.msg : Err → String
  | .invalidPaddingShortPacket => "Invalid padding (short packet)"
  | .invalidPaddingDelimiterNotFound => "Invalid padding (delimiter not found)"
  | .questionTooLarge => "Question too large; cannot be padded"
  | .invalidMessageSizeOrPrefix => "Invalid message size or prefix"
  | .unexpectedNonce => "Unexpected nonce"
  | .incorrectTag => "Incorrect tag"
  | .incorrectPadding => "Incorrect padding"

/-! ## Constants (crypto.go:11-16) -/

/-- Value of `xsecretbox.NonceSize` (crypto.go:12), a constant of the AEAD
package; the spec (section 6) gives 24. -/
def NonceSize : Nat := 24

/-- Half of the nonce, `xsecretbox.NonceSize / 2` (crypto.go:13). -/
def HalfNonceSize : Nat := NonceSize / 2

/-- Value of `xsecretbox.TagSize` (crypto.go:14), a constant of the AEAD
package; the spec (section 6) gives 16. -/
def TagSize : Nat := 16

/-- The package-level constants that crypto.go uses and that are declared in
other files of the package: they are parameters of the development. -/
structure Consts where
  /-- The fixed prefix of a response frame. -/
  ServerMagic : List Byte
  /-- Lower bound on the size of a DNS packet. -/
  MinDNSPacketSize : Nat
  /-- Upper bound on the size of a DNS packet. -/
  MaxDNSPacketSize : Nat
  /-- Upper bound on the size of a UDP question. -/
  MaxDNSUDPPacketSize : Nat

/-- The sum `len(ServerMagic) + NonceSize + TagSize` (crypto.go:15). -/
def ResponseOverhead (c : Consts) : Nat :=
  c.ServerMagic.length + NonceSize + TagSize

/-! ## Machine integers -/

/-- Wrap an integer into the range of a 64-bit signed `int`. -/
def wrapInt (x : Int) : Int :=
  (x + 9223372036854775808) % 18446744073709551616 - 9223372036854775808

/-- The 64-bit two's-complement representation of an integer. -/
def intBits (x : Int) : Nat :=
  (x % 18446744073709551616).toNat

/-- Go's binary `&` on `int`. -/
def andInt (a b : Int) : Int :=
  wrapInt ((intBits a &&& intBits b : Nat) : Int)

/-- Go's unary `^` (bitwise complement) on `int`. -/
def notInt (a : Int) : Int :=
  -a - 1

/-- Modelled from the spec: the package helper `Max(a, b int) int`, declared
outside crypto.go; the spec writes it `max`. -/
def Max (a b : Int) : Int :=
  if a > b then a else b

/-- Modelled from the spec: the package helper `Min(a, b int) int`, declared
outside crypto.go; the spec writes it `min`. -/
def Min (a b : Int) : Int :=
  if a < b then a else b

/-! ## Slices -/

/-- Go's `copy(dst, src)`: the first `min(len(dst), len(src))` elements of `dst`
are overwritten by those of `src`. -/
def copy (dst src : List Byte) : List Byte :=
  src.take dst.length ++ dst.drop src.length

/-- Go's slice expression `s[lo:hi]`; `none` is the bounds panic. -/
def slice (s : List Byte) (lo hi : Nat) : Option (List Byte) :=
  if lo ≤ hi ∧ hi ≤ s.length then some ((s.take hi).drop lo) else none

/-- The call `make([]byte, n)`: `n` zero bytes. -/
def make (n : Nat) : List Byte :=
  List.replicate n 0

/-- The call `rand.Read(b)` on the stream `rnd` from position `pos`: every
byte of `b` is replaced by the next byte of the stream. -/
def randRead (rnd : Nat → Byte) (pos : Nat) (b : List Byte) : List Byte :=
  (List.range b.length).map (fun i => rnd (pos + i))

/-! ## Padding codec (crypto.go:18-38) -/

/-- The loop of `pad` (crypto.go:20-22): while `len(packet) < minSize`, append
a zero byte. The first argument bounds the number of iterations. -/
def padLoop (minSize : Int) : Nat → List Byte → List Byte
  | 0, packet => packet
  | fuel + 1, packet =>
    if (packet.length : Int) < minSize then padLoop minSize fuel (packet ++ [0])
    else packet

/-- The function `pad` (crypto.go:18-24). The loop is run with as many
iterations as bytes are missing after the delimiter was appended, which
`padLoop_exit` shows to be enough for the loop to end by its own test. -/
def pad (packet : List Byte) (minSize : Int) : List Byte :=
  let packet := packet ++ [0x80]
  padLoop minSize (minSize - packet.length).toNat packet

/-- The loop of `unpad` (crypto.go:27-37), on the loop variable `i`: at `0`
the short-packet error; otherwise `i` is decremented and `packet[i]` is
examined. `i` never exceeds `len(packet)`, so the index is in range. -/
def unpadLoop (packet : List Byte) : Nat → List Byte × Option Err
  | 0 => ([], some .invalidPaddingShortPacket)
  | i + 1 =>
    if packet.getD i 0 = 0x80 then (packet.take i, none)
    else if packet.getD i 0 ≠ 0x00 then ([], some .invalidPaddingDelimiterNotFound)
    else unpadLoop packet i

/-- The function `unpad` (crypto.go:26-38). -/
def unpad (packet : List Byte) : List Byte × Option Err :=
  unpadLoop packet packet.length

/-! ## Collaborators of Encrypt and Decrypt -/

/-- The AEAD of package `xsecretbox`, a collaborator outside this repository.
`Seal nonce message key` is the box that `xsecretbox.Seal(out, nonce, message,
key)` appends to `out`: the ciphertext of `message` followed by its tag, so
`TagSize` bytes longer than `message`. `Open nonce box key` is the result of
`xsecretbox.Open(nil, nonce, box, key)`; `none` is its error. -/
structure AEAD where
  /-- The sealed box of a message. -/
  Seal : List Byte → List Byte → List Byte → List Byte
  /-- The message of a sealed box, or `none` when the box is rejected. -/
  Open : List Byte → List Byte → List Byte → Option (List Byte)
  /-- A sealed box is the message's ciphertext and a tag of `TagSize` bytes. -/
  Seal_length : ∀ nonce message key, (Seal nonce message key).length = message.length + TagSize

/-- The call `xsecretbox.Seal(out, nonce, message, key)`. -/
def AEAD.SealTo (box : AEAD) (out nonce message key : List Byte) : List Byte :=
  out ++ box.Seal nonce message key

/-- The fields of `ServerInfo` that crypto.go reads. -/
structure ServerInfo where
  /-- The per-server prefix of a request frame. -/
  MagicQuery : List Byte
  /-- The key shared with the server. -/
  SharedKey : List Byte

/-- The question-size estimator, seen through the one method crypto.go calls. -/
structure QuestionSizeEstimator where
  /-- The value returned by the method `MinQuestionSize()`. -/
  MinQuestionSize : Int
  /-- The returned value is a 64-bit `int`. -/
  MinQuestionSize_int :
    -9223372036854775808 ≤ MinQuestionSize ∧ MinQuestionSize ≤ 9223372036854775807

/-- The fields of `Proxy` that crypto.go reads. -/
structure Proxy where
  /-- The client's public key. -/
  proxyPublicKey : List Byte
  /-- The estimator consulted on the UDP path. -/
  questionSizeEstimator : QuestionSizeEstimator

/-- The three results of `Encrypt`. -/
structure EncryptResult where
  /-- The frame; empty when `err` is set. -/
  encrypted : List Byte
  /-- The client half of the nonce. -/
  clientNonce : List Byte
  /-- The error, `none` for nil. -/
  err : Option Err
  deriving DecidableEq, Repr

/-! ## Query encryptor (crypto.go:40-61) -/

/-- The value of `minQuestionSize` after crypto.go:44-51. The random byte
`xpad[0]` is read from the stream after the `HalfNonceSize` bytes of the client
nonce. -/
def minQuestionSize (c : Consts) (proxy : Proxy) (packet : List Byte) (proto : String)
    (rnd : Nat → Byte) : Int :=
  let minQuestionSize : Int := (ResponseOverhead c : Int) + (packet.length : Int)
  if proto = "udp" then
    Max proxy.questionSizeEstimator.MinQuestionSize minQuestionSize
  else
    let xpad := randRead rnd HalfNonceSize (make 1)
    minQuestionSize + ((xpad.getD 0 0).toNat : Int)

/-- The value of `paddedLength` (crypto.go:52) for a given `minQuestionSize`. -/
def paddedLength (c : Consts) (minQuestionSize : Int) : Int :=
  Min (c.MaxDNSUDPPacketSize : Int)
    (andInt (wrapInt (Max minQuestionSize (ResponseOverhead c : Int) + 63)) (notInt 63))

/-- The method `Proxy.Encrypt` (crypto.go:40-61). -/
def Encrypt (c : Consts) (box : AEAD) (proxy : Proxy) (serverInfo : ServerInfo)
    (packet : List Byte) (proto : String) (rnd : Nat → Byte) : EncryptResult :=
  let nonce := make NonceSize
  let clientNonce := make HalfNonceSize
  let clientNonce := randRead rnd 0 clientNonce
  let nonce := copy nonce clientNonce
  let minQuestionSize := minQuestionSize c proxy packet proto rnd
  let paddedLength := paddedLength c minQuestionSize
  if (ResponseOverhead c : Int) + (packet.length : Int) + 1 > paddedLength then
    { encrypted := [], clientNonce := clientNonce, err := some .questionTooLarge }
  else
    let encrypted := serverInfo.MagicQuery ++ proxy.proxyPublicKey
    let encrypted := encrypted ++ nonce.take HalfNonceSize
    let encrypted := box.SealTo encrypted nonce
      (pad packet (paddedLength - (ResponseOverhead c : Int))) serverInfo.SharedKey
    { encrypted := encrypted, clientNonce := clientNonce, err := none }

/-- The spec's `roundUpTo64`: the least multiple of 64 that is not below `x`. -/
def roundUpTo64 (x : Int) : Int :=
  (x + 63) / 64 * 64

/-! ## Response decryptor (crypto.go:63-84) -/

/-- The condition of crypto.go:66-68, with the short-circuit evaluation of
`||`: the prefix slice is taken only when both length tests are false. `none`
is a panic of the slice expression. -/
def badSizeOrPrefix (c : Consts) (encrypted : List Byte) : Option Bool :=
  let serverMagicLen := c.ServerMagic.length
  let responseHeaderLen := serverMagicLen + NonceSize
  if encrypted.length < responseHeaderLen + TagSize + c.MinDNSPacketSize then some true
  else if encrypted.length > responseHeaderLen + TagSize + c.MaxDNSPacketSize then some true
  else
    match slice encrypted 0 serverMagicLen with
    | none => none
    | some p => some (decide (p ≠ c.ServerMagic))

/-- The method `Proxy.Decrypt` (crypto.go:63-84). `none` is a panic of a slice
expression; otherwise the pair is the returned slice and error. -/
def Decrypt (c : Consts) (box : AEAD) (serverInfo : ServerInfo)
    (encrypted nonce : List Byte) : Option (List Byte × Option Err) :=
  let serverMagicLen := c.ServerMagic.length
  let responseHeaderLen := serverMagicLen + NonceSize
  match badSizeOrPrefix c encrypted with
  | none => none
  | some true => some (encrypted, some .invalidMessageSizeOrPrefix)
  | some false =>
    match slice encrypted serverMagicLen responseHeaderLen with
    | none => none
    | some serverNonce =>
      match slice nonce 0 HalfNonceSize, slice serverNonce 0 HalfNonceSize with
      | some n1, some n2 =>
        if n1 ≠ n2 then some (encrypted, some .unexpectedNonce)
        else
          match slice encrypted responseHeaderLen encrypted.length with
          | none => none
          | some payload =>
            match box.Open serverNonce payload serverInfo.SharedKey with
            | none => some (encrypted, some .incorrectTag)
            | some packet =>
              let r := unpad packet
              if r.2 ≠ none ∨ r.1.length < c.MinDNSPacketSize then
                some (encrypted, some .incorrectPadding)
              else some (r.1, none)
      | _, _ => none

/-! ## Concrete values for evaluation -/

/-- An instance of the constants: the 8-byte response magic `r6fnvWj8` of the
DNSCrypt protocol and the packet bounds 17, 4096 and 1252. -/
def sampleConsts : Consts where
  ServerMagic := [0x72, 0x36, 0x66, 0x6e, 0x76, 0x57, 0x6a, 0x38]
  MinDNSPacketSize := 17
  MaxDNSPacketSize := 4096
  MaxDNSUDPPacketSize := 1252

/-- Constants with a small UDP bound, for a short oversize packet. -/
def smallConsts : Consts where
  ServerMagic := [0x72, 0x36, 0x66, 0x6e, 0x76, 0x57, 0x6a, 0x38]
  MinDNSPacketSize := 17
  MaxDNSPacketSize := 4096
  MaxDNSUDPPacketSize := 64

/-- A stand-in for the AEAD in evaluations: the box is the message followed by
`TagSize` zero bytes, and a box is accepted when it ends with that tag. -/
def plainBox : AEAD where
  Seal := fun _ message _ => message ++ List.replicate TagSize 0
  Open := fun _ box _ =>
    if box.drop (box.length - TagSize) = List.replicate TagSize 0 ∧ TagSize ≤ box.length then
      some (box.take (box.length - TagSize))
    else none
  Seal_length := by intro _ m _; simp

/-- A server with the 8-byte query magic `q6fnvWj8` and a 32-byte key. -/
def sampleServer : ServerInfo where
  MagicQuery := [0x71, 0x36, 0x66, 0x6e, 0x76, 0x57, 0x6a, 0x38]
  SharedKey := List.replicate 32 7

/-- A proxy with a 32-byte public key whose estimator returns 0. -/
def sampleProxy : Proxy where
  proxyPublicKey := List.replicate 32 9
  questionSizeEstimator := { MinQuestionSize := 0, MinQuestionSize_int := by decide }

/-- A byte stream for `crypto/rand` in evaluations: position `i` holds `i + 1`. -/
def sampleRand : Nat → Byte :=
  fun i => UInt8.ofNat (i + 1)

/-- The byte stream of `crypto/rand` in which every byte is zero. -/
def zeroRand : Nat → Byte :=
  fun _ => 0

/-- A response frame for evaluations: `ServerMagic`, a server nonce of `NonceSize`
bytes of value 5, and the given payload. -/
def sampleFrame (payload : List Byte) : List Byte :=
  sampleConsts.ServerMagic ++ List.replicate NonceSize 5 ++ payload

/-- A payload that `plainBox` rejects: 33 bytes of value 1. -/
def rejectedPayload : List Byte :=
  List.replicate 33 1

/-- A payload that `plainBox` opens to 17 bytes of value 1 followed by the
delimiter: the box of `pad` of a 17-byte packet. -/
def paddedPayload : List Byte :=
  List.replicate 17 1 ++ [0x80] ++ List.replicate TagSize 0

/-- A proxy whose estimator returns 512. -/
def midProxy : Proxy where
  proxyPublicKey := List.replicate 32 9
  questionSizeEstimator := { MinQuestionSize := 512, MinQuestionSize_int := by decide }

/-! ## Lemmas on the padding codec -/

theorem padLoop_eq (minSize : Int) (fuel : Nat) (packet : List Byte) :
    padLoop minSize fuel packet
      = packet ++ List.replicate (min fuel (minSize - (packet.length : Int)).toNat) 0 := by
  induction fuel generalizing packet with
  | zero => simp [padLoop]
  | succ n ih =>
    unfold padLoop
    split
    · rename_i h
      rw [ih]
      have hk : min (n + 1) (minSize - (packet.length : Int)).toNat
          = min n (minSize - ((packet ++ [0]).length : Int)).toNat + 1 := by
        simp only [List.length_append, List.length_singleton]
        omega
      rw [hk, List.replicate_succ, List.append_assoc]
      rfl
    · rename_i h
      have hz : (minSize - (packet.length : Int)).toNat = 0 := by omega
      simp [hz]

theorem pad_eq (packet : List Byte) (minSize : Int) :
    pad packet minSize
      = packet ++ 0x80 :: List.replicate (minSize - (packet.length : Int) - 1).toNat 0 := by
  unfold pad
  simp only [padLoop_eq, List.length_append, List.length_singleton, min_self]
  have hk : (minSize - ((packet.length + 1 : Nat) : Int)).toNat
      = (minSize - (packet.length : Int) - 1).toNat := by omega
  rw [hk]
  simp

/-- The loop of `pad` ends because its test fails, not because the bound on
the iterations is reached. -/
theorem padLoop_exit (packet : List Byte) (minSize : Int) :
    ¬ (((pad packet minSize).length : Int) < minSize) := by
  rw [pad_eq]
  simp only [List.length_append, List.length_cons, List.length_replicate]
  omega

theorem unpadLoop_append (x y : List Byte) (i : Nat) (hi : i ≤ x.length) :
    unpadLoop (x ++ y) i = unpadLoop x i := by
  induction i with
  | zero => rfl
  | succ n ih =>
    have hn : n < x.length := hi
    have hget : (x ++ y).getD n 0 = x.getD n 0 := by
      simp [List.getD_eq_getElem?_getD, List.getElem?_append_left hn]
    have htake : (x ++ y).take n = x.take n := by
      rw [List.take_append_of_le_length (Nat.le_of_lt hn)]
    simp only [unpadLoop, hget, htake, ih (Nat.le_of_lt hn)]

theorem unpad_nil : unpad [] = ([], some Err.invalidPaddingShortPacket) := rfl

theorem unpad_snoc (xs : List Byte) (b : Byte) :
    unpad (xs ++ [b])
      = if b = 0x80 then (xs, none)
        else if b ≠ 0x00 then ([], some Err.invalidPaddingDelimiterNotFound)
        else unpad xs := by
  unfold unpad
  have hget : (xs ++ [b]).getD xs.length 0 = b := by
    simp [List.getD_eq_getElem?_getD]
  simp only [List.length_append, List.length_singleton, unpadLoop, hget,
    List.take_left, unpadLoop_append xs [b] xs.length (Nat.le_refl _)]

theorem unpad_snoc_zero (xs : List Byte) : unpad (xs ++ [0]) = unpad xs := by
  rw [unpad_snoc, if_neg (by decide), if_neg (by decide)]

theorem unpad_delim_zeros (p : List Byte) (k : Nat) :
    unpad (p ++ 0x80 :: List.replicate k 0) = (p, none) := by
  induction k with
  | zero =>
    have h := unpad_snoc p 0x80
    simpa using h
  | succ n ih =>
    have hs : p ++ 0x80 :: List.replicate (n + 1) 0
        = (p ++ 0x80 :: List.replicate n 0) ++ [0] := by
      rw [List.replicate_succ']
      simp
    rw [hs, unpad_snoc_zero, ih]

theorem unpad_ok_form (x p : List Byte) (h : unpad x = (p, none)) :
    ∃ k, x = p ++ 0x80 :: List.replicate k 0 := by
  induction x using List.reverseRecOn with
  | nil => simp [unpad_nil] at h
  | append_singleton xs b ih =>
    rw [unpad_snoc] at h
    split at h
    · rename_i hb
      have hp : xs = p := by simpa using h
      exact ⟨0, by simp [hp, hb]⟩
    · split at h
      · simp at h
      · rename_i hb0
        have hb : b = 0 := by simpa using hb0
        obtain ⟨k, hk⟩ := ih h
        refine ⟨k + 1, ?_⟩
        rw [hk, hb, List.replicate_succ']
        simp

theorem unpad_err_nil (x p : List Byte) (e : Err) (h : unpad x = (p, some e)) : p = [] := by
  induction x using List.reverseRecOn with
  | nil =>
    rw [unpad_nil] at h
    exact (congrArg Prod.fst h).symm
  | append_singleton xs b ih =>
    rw [unpad_snoc] at h
    split at h
    · simp at h
    · split at h
      · exact (congrArg Prod.fst h).symm
      · exact ih h

theorem unpad_zeros (k : Nat) :
    unpad (List.replicate k 0) = ([], some Err.invalidPaddingShortPacket) := by
  induction k with
  | zero => rfl
  | succ n ih =>
    rw [List.replicate_succ', unpad_snoc_zero, ih]

theorem unpad_bad_delim (pre : List Byte) (b : Byte) (k : Nat) (h0 : b ≠ 0) (h80 : b ≠ 0x80) :
    unpad (pre ++ b :: List.replicate k 0)
      = ([], some Err.invalidPaddingDelimiterNotFound) := by
  induction k with
  | zero =>
    have h := unpad_snoc pre b
    simp only [h80, h0, if_false, ne_eq, not_false_eq_true, if_true] at h
    simpa using h
  | succ n ih =>
    have hs : pre ++ b :: List.replicate (n + 1) 0
        = (pre ++ b :: List.replicate n 0) ++ [0] := by
      rw [List.replicate_succ']
      simp
    rw [hs, unpad_snoc_zero, ih]

/-! ## Lemmas on machine integers -/

theorem and_mask64 (u : Nat) (hu : u < 2 ^ 64) :
    u &&& 18446744073709551552 = u / 64 * 64 := by
  have hM : (18446744073709551552 : Nat) = (2 ^ 58 - 1) <<< 6 := by decide
  have hR : u / 64 * 64 = (u >>> 6) <<< 6 := by
    simp [Nat.shiftLeft_eq, Nat.shiftRight_eq_div_pow]
  rw [hM, hR]
  apply Nat.eq_of_testBit_eq
  intro i
  simp only [Nat.testBit_and, Nat.testBit_shiftLeft, Nat.testBit_shiftRight,
    Nat.testBit_two_pow_sub_one]
  by_cases h6 : 6 ≤ i
  · have e : 6 + (i - 6) = i := by omega
    by_cases h64 : i < 64
    · have h58 : i - 6 < 58 := by omega
      simp [h6, h58, e]
    · have h58 : ¬ (i - 6 < 58) := by omega
      have hf : u.testBit i = false :=
        Nat.testBit_lt_two_pow
          (lt_of_lt_of_le hu (Nat.pow_le_pow_right (by decide) (by omega)))
      simp [h58, e, hf]
  · simp [h6]

theorem intBits_lt (y : Int) : intBits y < 2 ^ 64 := by
  unfold intBits
  omega

theorem andInt_notInt_63 (y : Int) :
    andInt y (notInt 63) = wrapInt ((intBits y / 64 * 64 : Nat) : Int) := by
  have hm : intBits (notInt 63) = 18446744073709551552 := by decide
  unfold andInt
  rw [hm, and_mask64 _ (intBits_lt y)]

/-- Clearing the six low bits gives a multiple of 64, whatever the operand. -/
theorem andInt_notInt_63_dvd (y : Int) : (64 : Int) ∣ andInt y (notInt 63) := by
  rw [andInt_notInt_63]
  have hb := intBits_lt y
  unfold wrapInt
  push_cast
  omega

/-- Without overflow, `(x + 63) & ^63` is the spec's round-up. -/
theorem andInt_wrapInt_roundUp (x : Int) (h0 : 0 ≤ x) (h1 : x + 63 ≤ 9223372036854775807) :
    andInt (wrapInt (x + 63)) (notInt 63) = roundUpTo64 x := by
  rw [andInt_notInt_63]
  have hw : wrapInt (x + 63) = x + 63 := by
    unfold wrapInt
    omega
  rw [hw]
  unfold intBits wrapInt roundUpTo64
  push_cast
  omega

/-- With overflow of `x + 63`, the masked value is negative. -/
theorem andInt_wrapInt_overflow (x : Int) (h0 : x + 63 < 18446744073709551616)
    (h1 : 9223372036854775807 < x + 63) :
    andInt (wrapInt (x + 63)) (notInt 63) < 0 := by
  rw [andInt_notInt_63]
  unfold intBits wrapInt
  push_cast
  omega

theorem roundUpTo64_spec (x : Int) :
    (64 : Int) ∣ roundUpTo64 x ∧ x ≤ roundUpTo64 x ∧ roundUpTo64 x < x + 64 := by
  unfold roundUpTo64
  omega

theorem Min_le_left (a b : Int) : Min a b ≤ a := by
  unfold Min
  split <;> omega

theorem Min_le_right (a b : Int) : Min a b ≤ b := by
  unfold Min
  split <;> omega

theorem Min_eq_or (a b : Int) : Min a b = a ∨ Min a b = b := by
  unfold Min
  split <;> simp

theorem roundUpTo64_gt (x : Int) (h : ¬ (64 : Int) ∣ x) : x + 1 ≤ roundUpTo64 x := by
  unfold roundUpTo64
  omega

theorem fits_of_not_dvd (ro mx : Int) (hnd : ¬ (64 : Int) ∣ ro + 20) (hmax : ro + 21 ≤ mx) :
    ro + 20 + 1 ≤ Min mx (roundUpTo64 (ro + 20)) := by
  have hr := roundUpTo64_gt (ro + 20) hnd
  rcases Min_eq_or mx (roundUpTo64 (ro + 20)) with h1 | h1 <;> rw [h1] <;> linarith

theorem paddedLength_le (c : Consts) (m : Int) :
    paddedLength c m ≤ (c.MaxDNSUDPPacketSize : Int) :=
  Min_le_left _ _

/-! ## Lemmas on slices and on the nonce -/

theorem slice_head (a b : List Byte) : slice (a ++ b) 0 a.length = some a := by
  simp [slice]

theorem slice_mid (a b d : List Byte) :
    slice (a ++ b ++ d) a.length (a.length + b.length) = some b := by
  have h : a.length + b.length ≤ (a ++ b ++ d).length := by
    simp only [List.length_append]
    omega
  have ht : (a ++ b ++ d).take (a.length + b.length) = a ++ b := by
    rw [← List.length_append, List.take_left']
    rfl
  unfold slice
  rw [if_pos ⟨Nat.le_add_right _ _, h⟩, ht, List.drop_left]

theorem slice_suffix (a b : List Byte) :
    slice (a ++ b) a.length (a ++ b).length = some b := by
  have h : a.length ≤ (a ++ b).length := by
    simp only [List.length_append]
    omega
  unfold slice
  rw [if_pos ⟨h, Nat.le_refl _⟩, List.take_length, List.drop_left]

theorem slice_take (s : List Byte) (n : Nat) (h : n ≤ s.length) :
    slice s 0 n = some (s.take n) := by
  simp [slice, h]

theorem clientNonce_length (rnd : Nat → Byte) :
    (randRead rnd 0 (make HalfNonceSize)).length = HalfNonceSize := by
  simp [randRead, make]

theorem copy_nonce (cn : List Byte) (h : cn.length = HalfNonceSize) :
    copy (make NonceSize) cn = cn ++ List.replicate HalfNonceSize 0 := by
  have h12 : cn.length = 12 := h
  have ht : cn.take 24 = cn := List.take_of_length_le (by omega)
  simp [copy, make, NonceSize, HalfNonceSize, h12, ht]

/-! ## Lemmas on Encrypt -/

theorem Encrypt_too_large (c : Consts) (box : AEAD) (proxy : Proxy) (serverInfo : ServerInfo)
    (packet : List Byte) (proto : String) (rnd : Nat → Byte)
    (h : (ResponseOverhead c : Int) + (packet.length : Int) + 1
      > paddedLength c (minQuestionSize c proxy packet proto rnd)) :
    Encrypt c box proxy serverInfo packet proto rnd
      = { encrypted := [], clientNonce := randRead rnd 0 (make HalfNonceSize),
          err := some Err.questionTooLarge } := by
  simp only [Encrypt, if_pos h]

theorem Encrypt_fits (c : Consts) (box : AEAD) (proxy : Proxy) (serverInfo : ServerInfo)
    (packet : List Byte) (proto : String) (rnd : Nat → Byte)
    (h : ¬ ((ResponseOverhead c : Int) + (packet.length : Int) + 1
      > paddedLength c (minQuestionSize c proxy packet proto rnd))) :
    Encrypt c box proxy serverInfo packet proto rnd
      = { encrypted := serverInfo.MagicQuery ++ proxy.proxyPublicKey
            ++ randRead rnd 0 (make HalfNonceSize)
            ++ box.Seal (randRead rnd 0 (make HalfNonceSize) ++ List.replicate HalfNonceSize 0)
                (pad packet (paddedLength c (minQuestionSize c proxy packet proto rnd)
                  - (ResponseOverhead c : Int)))
                serverInfo.SharedKey,
          clientNonce := randRead rnd 0 (make HalfNonceSize),
          err := none } := by
  have hl := clientNonce_length rnd
  have ht : (randRead rnd 0 (make HalfNonceSize) ++ List.replicate HalfNonceSize 0).take
      HalfNonceSize = randRead rnd 0 (make HalfNonceSize) :=
    List.take_left' hl
  simp only [Encrypt, if_neg h, copy_nonce _ hl, ht, AEAD.SealTo]

theorem Encrypt_err_none_iff (c : Consts) (box : AEAD) (proxy : Proxy) (serverInfo : ServerInfo)
    (packet : List Byte) (proto : String) (rnd : Nat → Byte) :
    (Encrypt c box proxy serverInfo packet proto rnd).err = none
      ↔ (ResponseOverhead c : Int) + (packet.length : Int) + 1
          ≤ paddedLength c (minQuestionSize c proxy packet proto rnd) := by
  by_cases h : (ResponseOverhead c : Int) + (packet.length : Int) + 1
      > paddedLength c (minQuestionSize c proxy packet proto rnd)
  · rw [Encrypt_too_large c box proxy serverInfo packet proto rnd h]
    constructor
    · intro h1
      cases h1
    · intro h1
      omega
  · rw [Encrypt_fits c box proxy serverInfo packet proto rnd h]
    constructor
    · intro _
      omega
    · intro _
      rfl

/-! ## Lemmas on Decrypt -/

theorem badSizeOrPrefix_frame (c : Consts) (sn payload : List Byte)
    (hsn : sn.length = NonceSize)
    (hlo : TagSize + c.MinDNSPacketSize ≤ payload.length)
    (hhi : payload.length ≤ TagSize + c.MaxDNSPacketSize) :
    badSizeOrPrefix c (c.ServerMagic ++ sn ++ payload) = some false := by
  have hlen : (c.ServerMagic ++ sn ++ payload).length
      = c.ServerMagic.length + NonceSize + payload.length := by
    simp only [List.length_append, hsn]
  have h1 : ¬ ((c.ServerMagic ++ sn ++ payload).length
      < c.ServerMagic.length + NonceSize + TagSize + c.MinDNSPacketSize) := by
    rw [hlen]
    omega
  have h2 : ¬ ((c.ServerMagic ++ sn ++ payload).length
      > c.ServerMagic.length + NonceSize + TagSize + c.MaxDNSPacketSize) := by
    rw [hlen]
    omega
  have hs : slice (c.ServerMagic ++ sn ++ payload) 0 c.ServerMagic.length
      = some c.ServerMagic := by
    rw [List.append_assoc]
    exact slice_head _ _
  simp only [badSizeOrPrefix, if_neg h1, if_neg h2, hs]
  simp

theorem Decrypt_frame (c : Consts) (box : AEAD) (serverInfo : ServerInfo)
    (sn payload nonce : List Byte) (hsn : sn.length = NonceSize)
    (hn : HalfNonceSize ≤ nonce.length)
    (hlo : TagSize + c.MinDNSPacketSize ≤ payload.length)
    (hhi : payload.length ≤ TagSize + c.MaxDNSPacketSize) :
    Decrypt c box serverInfo (c.ServerMagic ++ sn ++ payload) nonce
      = if nonce.take HalfNonceSize ≠ sn.take HalfNonceSize then
          some (c.ServerMagic ++ sn ++ payload, some Err.unexpectedNonce)
        else
          match box.Open sn payload serverInfo.SharedKey with
          | none => some (c.ServerMagic ++ sn ++ payload, some Err.incorrectTag)
          | some packet =>
            if (unpad packet).2 ≠ none ∨ (unpad packet).1.length < c.MinDNSPacketSize then
              some (c.ServerMagic ++ sn ++ payload, some Err.incorrectPadding)
            else some ((unpad packet).1, none) := by
  have hb := badSizeOrPrefix_frame c sn payload hsn hlo hhi
  have hs2 : slice (c.ServerMagic ++ sn ++ payload) c.ServerMagic.length
      (c.ServerMagic.length + NonceSize) = some sn := by
    rw [← hsn]
    exact slice_mid _ _ _
  have hs3 : slice nonce 0 HalfNonceSize = some (nonce.take HalfNonceSize) :=
    slice_take _ _ hn
  have hs4 : slice sn 0 HalfNonceSize = some (sn.take HalfNonceSize) :=
    slice_take _ _ (by rw [hsn]; decide)
  have hs5 : slice (c.ServerMagic ++ sn ++ payload) (c.ServerMagic.length + NonceSize)
      (c.ServerMagic ++ sn ++ payload).length = some payload := by
    have h := slice_suffix (c.ServerMagic ++ sn) payload
    rw [List.length_append, hsn] at h
    exact h
  simp only [Decrypt, hb, hs2, hs3, hs4, hs5]

theorem pad_length_of_le (p : List Byte) (n : Int) (h : (p.length : Int) + 1 ≤ n) :
    ((pad p n).length : Int) = n := by
  rw [pad_eq]
  simp only [List.length_append, List.length_cons, List.length_replicate]
  omega

theorem le_Max_left (a b : Int) : a ≤ Max a b := by
  unfold Max
  split <;> omega

theorem le_Max_right (a b : Int) : b ≤ Max a b := by
  unfold Max
  split <;> omega

theorem Max_le (a b m : Int) (ha : a ≤ m) (hb : b ≤ m) : Max a b ≤ m := by
  unfold Max
  split <;> omega

theorem andInt_le (a b : Int) : andInt a b ≤ 9223372036854775807 := by
  unfold andInt wrapInt
  omega

theorem minQuestionSize_le (c : Consts) (proxy : Proxy) (packet : List Byte) (proto : String)
    (rnd : Nat → Byte) (m : Int)
    (hm : (ResponseOverhead c : Int) + (packet.length : Int) + 255 ≤ m)
    (he : 9223372036854775807 ≤ m) :
    minQuestionSize c proxy packet proto rnd ≤ m := by
  have hint := proxy.questionSizeEstimator.MinQuestionSize_int
  unfold minQuestionSize
  simp only
  split
  · exact Max_le _ _ _ (by omega) (by omega)
  · have hb := UInt8.toNat_lt ((randRead rnd HalfNonceSize (make 1)).getD 0 0)
    omega

/-- When the packet fits the computed budget, `x + 63` did not overflow and the
code's `paddedLength` is the spec's. -/
theorem paddedLength_of_fits (c : Consts) (proxy : Proxy) (packet : List Byte) (proto : String)
    (rnd : Nat → Byte)
    (h : (ResponseOverhead c : Int) + (packet.length : Int) + 1
      ≤ paddedLength c (minQuestionSize c proxy packet proto rnd)) :
    paddedLength c (minQuestionSize c proxy packet proto rnd)
      = Min (c.MaxDNSUDPPacketSize : Int)
          (roundUpTo64 (Max (minQuestionSize c proxy packet proto rnd)
            (ResponseOverhead c : Int))) := by
  have hP : paddedLength c (minQuestionSize c proxy packet proto rnd)
      ≤ andInt (wrapInt (Max (minQuestionSize c proxy packet proto rnd)
          (ResponseOverhead c : Int) + 63)) (notInt 63) := Min_le_right _ _
  have hA := andInt_le (wrapInt (Max (minQuestionSize c proxy packet proto rnd)
          (ResponseOverhead c : Int) + 63)) (notInt 63)
  have hx0 : (0 : Int) ≤ Max (minQuestionSize c proxy packet proto rnd)
      (ResponseOverhead c : Int) :=
    le_trans (Int.ofNat_nonneg _) (le_Max_right _ _)
  have hq := minQuestionSize_le c proxy packet proto rnd (9223372036854775807 + 255)
    (by omega) (by omega)
  have hx1 : Max (minQuestionSize c proxy packet proto rnd) (ResponseOverhead c : Int)
      ≤ 9223372036854775807 + 255 := Max_le _ _ _ hq (by omega)
  by_cases hov : Max (minQuestionSize c proxy packet proto rnd) (ResponseOverhead c : Int) + 63
      ≤ 9223372036854775807
  · unfold paddedLength
    rw [andInt_wrapInt_roundUp _ hx0 hov]
  · exfalso
    have hneg := andInt_wrapInt_overflow _ (by omega : Max (minQuestionSize c proxy packet
      proto rnd) (ResponseOverhead c : Int) + 63 < 18446744073709551616) (by omega)
    omega

theorem plainBox_Open_Seal (n m k : List Byte) :
    plainBox.Open n (plainBox.Seal n m k) k = some m := by
  simp [plainBox]

/-! ## The padding codec: round trip, length, layout, and the domain of unpad -/

/-- C1: for every byte sequence `p` and every `n > len(p)`, `unpad (pad p n)`
succeeds (nil error) and returns exactly `p`. -/
theorem unpad_pad_roundtrip (p : List Byte) (n : Int) (h : n > (p.length : Int)) :
    unpad (pad p n) = (p, none) := by
  have _ := h
  rw [pad_eq]
  exact unpad_delim_zeros p _

theorem unpad_pad_roundtrip_witness :
    (5 : Int) > (([1, 2, 3] : List Byte).length : Int)
      ∧ unpad (pad [1, 2, 3] 5) = ([1, 2, 3], none) :=
  ⟨by decide, unpad_pad_roundtrip [1, 2, 3] 5 (by decide)⟩

/-- C2: for every byte sequence `p` and every `n ≥ len(p) + 1`, `pad p n` has
length exactly `n`. -/
theorem pad_length_exact (p : List Byte) (n : Int) (h : n ≥ (p.length : Int) + 1) :
    ((pad p n).length : Int) = n :=
  pad_length_of_le p n h

theorem pad_length_exact_witness :
    (7 : Int) ≥ (([9, 8] : List Byte).length : Int) + 1
      ∧ ((pad [9, 8] 7).length : Int) = 7 :=
  ⟨by decide, pad_length_exact [9, 8] 7 (by decide)⟩

/-- C3: for every byte sequence `p` and every integer `n` (zero and negative
included), `pad p n` is `p`, then the byte 0x80, then `max 0 (n - len(p) - 1)`
zero bytes; when `n < len(p) + 1` the result is `p ++ [0x80]`, of length
`len(p) + 1`, which exceeds `n`. -/
theorem pad_layout (p : List Byte) (n : Int) :
    pad p n = p ++ [0x80] ++ List.replicate (max 0 (n - (p.length : Int) - 1)).toNat 0
      ∧ (n < (p.length : Int) + 1 →
          pad p n = p ++ [0x80]
            ∧ ((pad p n).length : Int) = (p.length : Int) + 1
            ∧ ((pad p n).length : Int) > n) := by
  have hk : (max 0 (n - (p.length : Int) - 1)).toNat = (n - (p.length : Int) - 1).toNat := by
    omega
  constructor
  · rw [pad_eq, hk]
    simp
  · intro hn
    have hz : (n - (p.length : Int) - 1).toNat = 0 := by omega
    have he : pad p n = p ++ [0x80] := by
      rw [pad_eq, hz]
      rfl
    have hl : ((pad p n).length : Int) = (p.length : Int) + 1 := by
      rw [he]
      simp only [List.length_append, List.length_singleton]
      omega
    exact ⟨he, hl, by omega⟩

/-- C4: `unpad x` succeeds with result `p` if and only if `x` is `p`, then
0x80, then `k` zero bytes for some `k`, equivalently `x = pad p (len x)`. In
every other case `unpad x` returns an error and no packet: so it is for the
empty `x`, for an `x` of zero bytes only, and for an `x` whose last non-zero
byte is not 0x80. -/
theorem unpad_ok_iff_padded (x : List Byte) :
    (∀ p, unpad x = (p, none) ↔ ∃ k, x = p ++ 0x80 :: List.replicate k 0)
      ∧ (∀ p, unpad x = (p, none) ↔ x = pad p (x.length : Int))
      ∧ ((¬ ∃ p k, x = p ++ 0x80 :: List.replicate k 0) → ∃ e, unpad x = ([], some e))
      ∧ (x = [] → unpad x = ([], some Err.invalidPaddingShortPacket))
      ∧ ((∀ b ∈ x, b = 0) → unpad x = ([], some Err.invalidPaddingShortPacket))
      ∧ (∀ pre b k, x = pre ++ b :: List.replicate k 0 → b ≠ 0 → b ≠ 0x80 →
          unpad x = ([], some Err.invalidPaddingDelimiterNotFound)) := by
  have hiff : ∀ p, unpad x = (p, none) ↔ ∃ k, x = p ++ 0x80 :: List.replicate k 0 := by
    intro p
    constructor
    · exact unpad_ok_form x p
    · rintro ⟨k, rfl⟩
      exact unpad_delim_zeros p k
  refine ⟨hiff, ?_, ?_, ?_, ?_, ?_⟩
  · intro p
    rw [hiff p]
    constructor
    · rintro ⟨k, rfl⟩
      rw [pad_eq]
      have hk : (((p ++ 0x80 :: List.replicate k 0).length : Int) - (p.length : Int) - 1).toNat
          = k := by
        simp only [List.length_append, List.length_cons, List.length_replicate]
        omega
      rw [hk]
    · intro hx
      rw [pad_eq] at hx
      exact ⟨_, hx⟩
  · intro hno
    cases hu : unpad x with
    | mk q oe =>
      cases oe with
      | none => exact absurd ⟨q, (hiff q).mp hu⟩ hno
      | some e =>
        have hq := unpad_err_nil x q e hu
        exact ⟨e, by rw [hq]⟩
  · rintro rfl
    exact unpad_nil
  · intro hz
    rw [List.eq_replicate_of_mem hz]
    exact unpad_zeros _
  · rintro pre b k rfl h0 h80
    exact unpad_bad_delim pre b k h0 h80

/-! ## Encrypt and Decrypt -/

/-- C5: Encrypt then Decrypt returns the original plaintext. For an AEAD with
`Open n (Seal n m k) k = m` and `MaxDNSUDPPacketSize ≤ ResponseOverhead +
MaxDNSPacketSize`, for every packet of at least `MinDNSPacketSize` bytes, every
transport hint, estimator value and random bytes for which Encrypt succeeds
with client nonce half `cn` and sealed payload `s` (the request frame after
`MagicQuery`, the public key and `cn`), Decrypt on the response frame
`ServerMagic ++ (cn ++ HalfNonceSize zero bytes) ++ s`, with the same key and
the retained half `cn`, returns exactly the packet and a nil error. -/
theorem Decrypt_Encrypt_roundtrip (c : Consts) (box : AEAD) (proxy : Proxy)
    (serverInfo : ServerInfo) (packet : List Byte) (proto : String) (rnd : Nat → Byte)
    (hopen : ∀ n m k, box.Open n (box.Seal n m k) k = some m)
    (hmax : (c.MaxDNSUDPPacketSize : Int)
      ≤ (ResponseOverhead c : Int) + (c.MaxDNSPacketSize : Int))
    (hmin : c.MinDNSPacketSize ≤ packet.length)
    (hok : (Encrypt c box proxy serverInfo packet proto rnd).err = none) :
    Decrypt c box serverInfo
      (c.ServerMagic
        ++ ((Encrypt c box proxy serverInfo packet proto rnd).clientNonce
              ++ List.replicate HalfNonceSize 0)
        ++ (Encrypt c box proxy serverInfo packet proto rnd).encrypted.drop
              (serverInfo.MagicQuery.length + proxy.proxyPublicKey.length + HalfNonceSize))
      (Encrypt c box proxy serverInfo packet proto rnd).clientNonce
      = some (packet, none) := by
  have hfit := (Encrypt_err_none_iff c box proxy serverInfo packet proto rnd).mp hok
  have hP := paddedLength_le c (minQuestionSize c proxy packet proto rnd)
  have hcn := clientNonce_length rnd
  rw [Encrypt_fits c box proxy serverInfo packet proto rnd (by omega)]
  simp only
  generalize hcnd : randRead rnd 0 (make HalfNonceSize) = cn at hcn
  generalize hPd : paddedLength c (minQuestionSize c proxy packet proto rnd) = P at hfit hP
  have hdrop : (serverInfo.MagicQuery ++ proxy.proxyPublicKey ++ cn
      ++ box.Seal (cn ++ List.replicate HalfNonceSize 0)
          (pad packet (P - (ResponseOverhead c : Int))) serverInfo.SharedKey).drop
        (serverInfo.MagicQuery.length + proxy.proxyPublicKey.length + HalfNonceSize)
      = box.Seal (cn ++ List.replicate HalfNonceSize 0)
          (pad packet (P - (ResponseOverhead c : Int))) serverInfo.SharedKey := by
    apply List.drop_left'
    simp only [List.length_append, hcn]
  rw [hdrop]
  have hpl : ((pad packet (P - (ResponseOverhead c : Int))).length : Int)
      = P - (ResponseOverhead c : Int) := pad_length_of_le _ _ (by omega)
  have hsl := box.Seal_length (cn ++ List.replicate HalfNonceSize 0)
    (pad packet (P - (ResponseOverhead c : Int))) serverInfo.SharedKey
  have hsn : (cn ++ List.replicate HalfNonceSize 0).length = NonceSize := by
    simp only [List.length_append, List.length_replicate, hcn]
    rfl
  have ht1 : cn.take HalfNonceSize = cn := List.take_of_length_le (by omega)
  have ht2 : (cn ++ List.replicate HalfNonceSize 0).take HalfNonceSize = cn :=
    List.take_left' hcn
  have hn : HalfNonceSize ≤ cn.length := Nat.le_of_eq hcn.symm
  have hlo : TagSize + c.MinDNSPacketSize
      ≤ (box.Seal (cn ++ List.replicate HalfNonceSize 0)
          (pad packet (P - (ResponseOverhead c : Int))) serverInfo.SharedKey).length := by
    rw [hsl]
    omega
  have hhi : (box.Seal (cn ++ List.replicate HalfNonceSize 0)
          (pad packet (P - (ResponseOverhead c : Int))) serverInfo.SharedKey).length
      ≤ TagSize + c.MaxDNSPacketSize := by
    rw [hsl]
    omega
  rw [Decrypt_frame c box serverInfo (cn ++ List.replicate HalfNonceSize 0)
    (box.Seal (cn ++ List.replicate HalfNonceSize 0)
      (pad packet (P - (ResponseOverhead c : Int))) serverInfo.SharedKey) cn hsn hn hlo hhi]
  have hu : unpad (pad packet (P - (ResponseOverhead c : Int))) = (packet, none) := by
    rw [pad_eq]
    exact unpad_delim_zeros packet _
  have hnot : ¬ (False ∨ packet.length < c.MinDNSPacketSize) := by
    intro h
    cases h with
    | inl h => exact h
    | inr h => omega
  simp only [ht1, ht2, hopen, hu, ne_eq, not_true_eq_false, if_false]
  rw [if_neg hnot]

theorem Decrypt_Encrypt_roundtrip_witness :
    Decrypt sampleConsts plainBox sampleServer
      (sampleConsts.ServerMagic
        ++ ((Encrypt sampleConsts plainBox sampleProxy sampleServer (List.replicate 20 1)
              "udp" sampleRand).clientNonce ++ List.replicate HalfNonceSize 0)
        ++ (Encrypt sampleConsts plainBox sampleProxy sampleServer (List.replicate 20 1)
              "udp" sampleRand).encrypted.drop
              (sampleServer.MagicQuery.length + sampleProxy.proxyPublicKey.length
                + HalfNonceSize))
      (Encrypt sampleConsts plainBox sampleProxy sampleServer (List.replicate 20 1)
        "udp" sampleRand).clientNonce
      = some (List.replicate 20 1, none) :=
  Decrypt_Encrypt_roundtrip sampleConsts plainBox sampleProxy sampleServer
    (List.replicate 20 1) "udp" sampleRand plainBox_Open_Seal (by decide) (by decide)
    (by decide)

/-- C6: for every packet with `len(packet) > MaxDNSUDPPacketSize -
ResponseOverhead - 1`, for every transport hint, estimator value and random
bytes, Encrypt fails with the error "Question too large; cannot be padded"
and returns no frame. -/
theorem Encrypt_oversize (c : Consts) (box : AEAD) (proxy : Proxy)
    (serverInfo : ServerInfo) (packet : List Byte) (proto : String) (rnd : Nat → Byte)
    (h : (packet.length : Int)
      > (c.MaxDNSUDPPacketSize : Int) - (ResponseOverhead c : Int) - 1) :
    (Encrypt c box proxy serverInfo packet proto rnd).err = some Err.questionTooLarge
      ∧ (Encrypt c box proxy serverInfo packet proto rnd).encrypted = [] := by
  have hP := paddedLength_le c (minQuestionSize c proxy packet proto rnd)
  rw [Encrypt_too_large c box proxy serverInfo packet proto rnd (by omega)]
  exact ⟨rfl, rfl⟩

theorem Encrypt_oversize_witness :
    (((List.replicate 16 1 : List Byte).length : Int)
        > (smallConsts.MaxDNSUDPPacketSize : Int) - (ResponseOverhead smallConsts : Int) - 1)
      ∧ (Encrypt smallConsts plainBox sampleProxy sampleServer (List.replicate 16 1) "tcp"
            sampleRand).err = some Err.questionTooLarge
      ∧ (Encrypt smallConsts plainBox sampleProxy sampleServer (List.replicate 16 1) "tcp"
            sampleRand).encrypted = [] :=
  ⟨by decide, Encrypt_oversize smallConsts plainBox sampleProxy sampleServer
    (List.replicate 16 1) "tcp" sampleRand (by decide)⟩

/-- C7 (evaluation of the code at the failing input): with an 8-byte
`ServerMagic` (`ResponseOverhead = 48`) and `MaxDNSUDPPacketSize = 1252`, a
packet of 80 bytes satisfies `len(packet) ≤ MaxDNSUDPPacketSize -
ResponseOverhead - 1`, yet Encrypt returns "Question too large; cannot be
padded": on UDP with an estimator value of 0, and on TCP when the random
padding byte is 0, because `ResponseOverhead + len(packet) = 128` is a multiple
of 64 and the round-up leaves no room for the delimiter. -/
theorem Encrypt_rejects_packet_within_budget :
    (((List.replicate 80 1 : List Byte).length : Int)
        ≤ (sampleConsts.MaxDNSUDPPacketSize : Int) - (ResponseOverhead sampleConsts : Int) - 1)
      ∧ (Encrypt sampleConsts plainBox sampleProxy sampleServer (List.replicate 80 1) "udp"
            sampleRand).err = some Err.questionTooLarge
      ∧ (Encrypt sampleConsts plainBox sampleProxy sampleServer (List.replicate 80 1) "tcp"
            zeroRand).err = some Err.questionTooLarge := by
  decide

/-- C8: whenever Encrypt succeeds, its frame is `MagicQuery ++ proxyPublicKey
++ cn ++ Seal (cn ++ HalfNonceSize zero bytes) (pad packet (paddedLength -
ResponseOverhead)) SharedKey`, where `cn` is the client nonce half that Encrypt
returns as its second result, of `HalfNonceSize` bytes, and `paddedLength =
Min MaxDNSUDPPacketSize (roundUpTo64 (Max minQuestionSize ResponseOverhead))`. -/
theorem Encrypt_frame_layout (c : Consts) (box : AEAD) (proxy : Proxy)
    (serverInfo : ServerInfo) (packet : List Byte) (proto : String) (rnd : Nat → Byte)
    (hok : (Encrypt c box proxy serverInfo packet proto rnd).err = none) :
    (Encrypt c box proxy serverInfo packet proto rnd).encrypted
        = serverInfo.MagicQuery ++ proxy.proxyPublicKey
          ++ (Encrypt c box proxy serverInfo packet proto rnd).clientNonce
          ++ box.Seal
              ((Encrypt c box proxy serverInfo packet proto rnd).clientNonce
                ++ List.replicate HalfNonceSize 0)
              (pad packet
                (Min (c.MaxDNSUDPPacketSize : Int)
                    (roundUpTo64 (Max (minQuestionSize c proxy packet proto rnd)
                      (ResponseOverhead c : Int)))
                  - (ResponseOverhead c : Int)))
              serverInfo.SharedKey
      ∧ (Encrypt c box proxy serverInfo packet proto rnd).clientNonce.length = HalfNonceSize
      ∧ paddedLength c (minQuestionSize c proxy packet proto rnd)
          = Min (c.MaxDNSUDPPacketSize : Int)
              (roundUpTo64 (Max (minQuestionSize c proxy packet proto rnd)
                (ResponseOverhead c : Int))) := by
  have hfit := (Encrypt_err_none_iff c box proxy serverInfo packet proto rnd).mp hok
  have hpl := paddedLength_of_fits c proxy packet proto rnd hfit
  rw [Encrypt_fits c box proxy serverInfo packet proto rnd (by omega)]
  simp only
  rw [← hpl]
  exact ⟨rfl, clientNonce_length rnd, rfl⟩

theorem Encrypt_frame_layout_witness :
    (Encrypt sampleConsts plainBox sampleProxy sampleServer [1, 2, 3] "tcp" sampleRand).encrypted
        = sampleServer.MagicQuery ++ sampleProxy.proxyPublicKey
          ++ (Encrypt sampleConsts plainBox sampleProxy sampleServer [1, 2, 3] "tcp"
                sampleRand).clientNonce
          ++ plainBox.Seal
              ((Encrypt sampleConsts plainBox sampleProxy sampleServer [1, 2, 3] "tcp"
                  sampleRand).clientNonce ++ List.replicate HalfNonceSize 0)
              (pad [1, 2, 3]
                (Min (sampleConsts.MaxDNSUDPPacketSize : Int)
                    (roundUpTo64 (Max (minQuestionSize sampleConsts sampleProxy [1, 2, 3] "tcp"
                      sampleRand) (ResponseOverhead sampleConsts : Int)))
                  - (ResponseOverhead sampleConsts : Int)))
              sampleServer.SharedKey
      ∧ (Encrypt sampleConsts plainBox sampleProxy sampleServer [1, 2, 3] "tcp"
            sampleRand).clientNonce.length = HalfNonceSize
      ∧ paddedLength sampleConsts (minQuestionSize sampleConsts sampleProxy [1, 2, 3] "tcp"
            sampleRand)
          = Min (sampleConsts.MaxDNSUDPPacketSize : Int)
              (roundUpTo64 (Max (minQuestionSize sampleConsts sampleProxy [1, 2, 3] "tcp"
                sampleRand) (ResponseOverhead sampleConsts : Int))) :=
  Encrypt_frame_layout sampleConsts plainBox sampleProxy sampleServer [1, 2, 3] "tcp"
    sampleRand (by decide)

/-- C9: for every non-negative `minQuestionSize`, the `paddedLength` computed
by Encrypt, `Min MaxDNSUDPPacketSize ((Max minQuestionSize ResponseOverhead +
63) & ^63)`, is equal to `MaxDNSUDPPacketSize` or divisible by 64. -/
theorem paddedLength_clamped_or_multiple (c : Consts) (m : Int) (h : 0 ≤ m) :
    paddedLength c m = (c.MaxDNSUDPPacketSize : Int) ∨ (64 : Int) ∣ paddedLength c m := by
  have _ := h
  unfold paddedLength
  rcases Min_eq_or (c.MaxDNSUDPPacketSize : Int)
    (andInt (wrapInt (Max m (ResponseOverhead c : Int) + 63)) (notInt 63)) with h1 | h1
  · exact Or.inl h1
  · rw [h1]
    exact Or.inr (andInt_notInt_63_dvd _)

theorem paddedLength_clamped_or_multiple_witness :
    (0 : Int) ≤ 68
      ∧ (paddedLength sampleConsts 68 = (sampleConsts.MaxDNSUDPPacketSize : Int)
          ∨ (64 : Int) ∣ paddedLength sampleConsts 68) :=
  ⟨by decide, paddedLength_clamped_or_multiple sampleConsts 68 (by decide)⟩

set_option maxRecDepth 20000 in
/-- C10 (the claim fails): with an 8-byte `ServerMagic` (`ResponseOverhead =
48`), a 32-byte public key, a 20-byte packet, transport hint "udp" and an
estimator value of 0, Encrypt succeeds, but `paddedLength` is 128 and the
padded plaintext has 80 bytes, neither is 64, and the frame has
`len(MagicQuery) + 32 + 12 + 80 + TagSize` bytes, not
`len(MagicQuery) + 32 + 12 + 64 + TagSize`. -/
theorem Encrypt_udp_twenty_counterexample :
    ((List.replicate 20 1 : List Byte).length = 20
        ∧ sampleProxy.questionSizeEstimator.MinQuestionSize = 0
        ∧ sampleProxy.proxyPublicKey.length = 32)
      ∧ (Encrypt sampleConsts plainBox sampleProxy sampleServer (List.replicate 20 1) "udp"
            sampleRand).err = none
      ∧ paddedLength sampleConsts
            (minQuestionSize sampleConsts sampleProxy (List.replicate 20 1) "udp" sampleRand)
          = 128
      ∧ (pad (List.replicate 20 1)
            (paddedLength sampleConsts
                (minQuestionSize sampleConsts sampleProxy (List.replicate 20 1) "udp" sampleRand)
              - (ResponseOverhead sampleConsts : Int))).length = 80
      ∧ (Encrypt sampleConsts plainBox sampleProxy sampleServer (List.replicate 20 1) "udp"
            sampleRand).encrypted.length
          = sampleServer.MagicQuery.length + 32 + 12 + 80 + TagSize
      ∧ ¬ ((Encrypt sampleConsts plainBox sampleProxy sampleServer (List.replicate 20 1) "udp"
            sampleRand).encrypted.length
          = sampleServer.MagicQuery.length + 32 + 12 + 64 + TagSize) := by
  decide

/-- C10 (amended): for every 20-byte packet encrypted with transport hint
"udp", an estimator value of 0 and a 32-byte public key, when
`ResponseOverhead + 20` is not a multiple of 64, `ResponseOverhead + 21 ≤
MaxDNSUDPPacketSize` and `ResponseOverhead + 83` is an `int`: Encrypt succeeds,
`paddedLength` is `Min MaxDNSUDPPacketSize (roundUpTo64 (ResponseOverhead +
20))`, and the frame has `len(MagicQuery) + 32 + 12 + (paddedLength -
ResponseOverhead) + TagSize` bytes. -/
theorem Encrypt_udp_twenty (c : Consts) (box : AEAD) (proxy : Proxy)
    (serverInfo : ServerInfo) (packet : List Byte) (rnd : Nat → Byte)
    (hlen : packet.length = 20)
    (he : proxy.questionSizeEstimator.MinQuestionSize = 0)
    (hpk : proxy.proxyPublicKey.length = 32)
    (hnd : ¬ 64 ∣ ResponseOverhead c + 20)
    (hmax : ResponseOverhead c + 21 ≤ c.MaxDNSUDPPacketSize)
    (hint : (ResponseOverhead c : Int) + 83 ≤ 9223372036854775807) :
    (Encrypt c box proxy serverInfo packet "udp" rnd).err = none
      ∧ paddedLength c (minQuestionSize c proxy packet "udp" rnd)
          = Min (c.MaxDNSUDPPacketSize : Int) (roundUpTo64 ((ResponseOverhead c : Int) + 20))
      ∧ (Encrypt c box proxy serverInfo packet "udp" rnd).encrypted.length
          = serverInfo.MagicQuery.length + 32 + 12
            + (Min (c.MaxDNSUDPPacketSize : Int) (roundUpTo64 ((ResponseOverhead c : Int) + 20))
                - (ResponseOverhead c : Int)).toNat
            + TagSize := by
  have hq : minQuestionSize c proxy packet "udp" rnd = (ResponseOverhead c : Int) + 20 := by
    unfold minQuestionSize
    simp only [if_true, he, hlen]
    unfold Max
    split <;> omega
  have hx : Max ((ResponseOverhead c : Int) + 20) (ResponseOverhead c : Int)
      = (ResponseOverhead c : Int) + 20 := by
    unfold Max
    split <;> omega
  have hP : paddedLength c ((ResponseOverhead c : Int) + 20)
      = Min (c.MaxDNSUDPPacketSize : Int) (roundUpTo64 ((ResponseOverhead c : Int) + 20)) := by
    unfold paddedLength
    rw [hx, andInt_wrapInt_roundUp _ (by omega) (by omega)]
  have hPq : paddedLength c (minQuestionSize c proxy packet "udp" rnd)
      = Min (c.MaxDNSUDPPacketSize : Int) (roundUpTo64 ((ResponseOverhead c : Int) + 20)) := by
    rw [hq, hP]
  have hndI : ¬ (64 : Int) ∣ (ResponseOverhead c : Int) + 20 := by
    exact_mod_cast hnd
  have hmaxI : (ResponseOverhead c : Int) + 21 ≤ (c.MaxDNSUDPPacketSize : Int) := by
    exact_mod_cast hmax
  have hfitM := fits_of_not_dvd _ _ hndI hmaxI
  have hl20 : (packet.length : Int) = 20 := by
    rw [hlen]
    rfl
  have hfit : (ResponseOverhead c : Int) + (packet.length : Int) + 1
      ≤ paddedLength c (minQuestionSize c proxy packet "udp" rnd) := by
    rw [hPq, hl20]
    exact hfitM
  have hpad : ((pad packet (Min (c.MaxDNSUDPPacketSize : Int)
        (roundUpTo64 ((ResponseOverhead c : Int) + 20)) - (ResponseOverhead c : Int))).length : Int)
      = Min (c.MaxDNSUDPPacketSize : Int) (roundUpTo64 ((ResponseOverhead c : Int) + 20))
        - (ResponseOverhead c : Int) := by
    apply pad_length_of_le
    rw [hl20]
    linarith
  have hsl := box.Seal_length (randRead rnd 0 (make HalfNonceSize) ++ List.replicate HalfNonceSize 0)
    (pad packet (Min (c.MaxDNSUDPPacketSize : Int)
      (roundUpTo64 ((ResponseOverhead c : Int) + 20)) - (ResponseOverhead c : Int)))
    serverInfo.SharedKey
  have hcn : (randRead rnd 0 (make HalfNonceSize)).length = 12 := clientNonce_length rnd
  refine ⟨(Encrypt_err_none_iff c box proxy serverInfo packet "udp" rnd).mpr hfit, hPq, ?_⟩
  rw [Encrypt_fits c box proxy serverInfo packet "udp" rnd (not_lt.mpr hfit), hPq]
  simp only [List.length_append, hsl, hpk, hcn]
  generalize (pad packet (Min (c.MaxDNSUDPPacketSize : Int)
      (roundUpTo64 ((ResponseOverhead c : Int) + 20)) - (ResponseOverhead c : Int))).length = n
    at hpad
  generalize Min (c.MaxDNSUDPPacketSize : Int) (roundUpTo64 ((ResponseOverhead c : Int) + 20))
      - (ResponseOverhead c : Int) = d at hpad
  subst hpad
  simp only [Int.toNat_ofNat]
  omega

theorem Encrypt_udp_twenty_witness :
    (Encrypt sampleConsts plainBox sampleProxy sampleServer (List.replicate 20 1) "udp"
          sampleRand).err = none
      ∧ paddedLength sampleConsts
            (minQuestionSize sampleConsts sampleProxy (List.replicate 20 1) "udp" sampleRand)
          = Min (sampleConsts.MaxDNSUDPPacketSize : Int)
              (roundUpTo64 ((ResponseOverhead sampleConsts : Int) + 20))
      ∧ (Encrypt sampleConsts plainBox sampleProxy sampleServer (List.replicate 20 1) "udp"
            sampleRand).encrypted.length
          = sampleServer.MagicQuery.length + 32 + 12
            + (Min (sampleConsts.MaxDNSUDPPacketSize : Int)
                  (roundUpTo64 ((ResponseOverhead sampleConsts : Int) + 20))
                - (ResponseOverhead sampleConsts : Int)).toNat
            + TagSize :=
  Encrypt_udp_twenty sampleConsts plainBox sampleProxy sampleServer (List.replicate 20 1)
    sampleRand (by decide) (by decide) (by decide) (by decide) (by decide) (by decide)

/-! ## Decrypt as a function of the frame -/

/-- The condition of crypto.go:66-68 never panics: it is true exactly when the
frame is too short, too long, or does not start with `ServerMagic`. -/
theorem badSizeOrPrefix_eq (c : Consts) (encrypted : List Byte) :
    badSizeOrPrefix c encrypted
      = some (decide
          (encrypted.length < c.ServerMagic.length + NonceSize + TagSize + c.MinDNSPacketSize
            ∨ encrypted.length > c.ServerMagic.length + NonceSize + TagSize + c.MaxDNSPacketSize
            ∨ encrypted.take c.ServerMagic.length ≠ c.ServerMagic)) := by
  unfold badSizeOrPrefix
  simp only
  split
  · rename_i h
    simp [h]
  · rename_i h1
    split
    · rename_i h2
      simp [h2]
    · rename_i h2
      have hL : c.ServerMagic.length ≤ encrypted.length := by omega
      rw [slice_take encrypted c.ServerMagic.length hL]
      simp [h1, h2]

/-- A frame that passes the length and prefix tests is `ServerMagic`, then a
server nonce of `NonceSize` bytes, then a payload within the size bounds. -/
theorem frame_split (c : Consts) (encrypted : List Byte)
    (hlo : c.ServerMagic.length + NonceSize + TagSize + c.MinDNSPacketSize ≤ encrypted.length)
    (hhi : encrypted.length ≤ c.ServerMagic.length + NonceSize + TagSize + c.MaxDNSPacketSize)
    (hp : encrypted.take c.ServerMagic.length = c.ServerMagic) :
    ∃ sn payload, encrypted = c.ServerMagic ++ sn ++ payload
      ∧ sn.length = NonceSize
      ∧ TagSize + c.MinDNSPacketSize ≤ payload.length
      ∧ payload.length ≤ TagSize + c.MaxDNSPacketSize
      ∧ sn = (encrypted.drop c.ServerMagic.length).take NonceSize
      ∧ payload = encrypted.drop (c.ServerMagic.length + NonceSize) := by
  refine ⟨(encrypted.drop c.ServerMagic.length).take NonceSize,
    encrypted.drop (c.ServerMagic.length + NonceSize), ?_, ?_, ?_, ?_, rfl, rfl⟩
  · have h1 : encrypted = encrypted.take c.ServerMagic.length
        ++ encrypted.drop c.ServerMagic.length := (List.take_append_drop _ _).symm
    have h2 : encrypted.drop c.ServerMagic.length
        = (encrypted.drop c.ServerMagic.length).take NonceSize
          ++ (encrypted.drop c.ServerMagic.length).drop NonceSize :=
      (List.take_append_drop _ _).symm
    rw [List.drop_drop] at h2
    rw [List.append_assoc, ← h2]
    exact h1.trans (by rw [hp])
  · rw [List.length_take, List.length_drop]
    omega
  · rw [List.length_drop]
    omega
  · rw [List.length_drop]
    omega

/-- The whole of Decrypt, as a function of the frame: the test of crypto.go:66-68,
the panic of `nonce[:HalfNonceSize]` on a short nonce argument, the comparison
of the nonce halves, the AEAD, and the padding. -/
theorem Decrypt_cases (c : Consts) (box : AEAD) (serverInfo : ServerInfo)
    (encrypted nonce : List Byte) :
    Decrypt c box serverInfo encrypted nonce
      = if encrypted.length < c.ServerMagic.length + NonceSize + TagSize + c.MinDNSPacketSize
            ∨ encrypted.length > c.ServerMagic.length + NonceSize + TagSize + c.MaxDNSPacketSize
            ∨ encrypted.take c.ServerMagic.length ≠ c.ServerMagic then
          some (encrypted, some Err.invalidMessageSizeOrPrefix)
        else if nonce.length < HalfNonceSize then none
        else if nonce.take HalfNonceSize
            ≠ (encrypted.drop c.ServerMagic.length).take HalfNonceSize then
          some (encrypted, some Err.unexpectedNonce)
        else
          match box.Open ((encrypted.drop c.ServerMagic.length).take NonceSize)
              (encrypted.drop (c.ServerMagic.length + NonceSize)) serverInfo.SharedKey with
          | none => some (encrypted, some Err.incorrectTag)
          | some packet =>
            if (unpad packet).2 ≠ none ∨ (unpad packet).1.length < c.MinDNSPacketSize then
              some (encrypted, some Err.incorrectPadding)
            else some ((unpad packet).1, none) := by
  by_cases hbad : encrypted.length
        < c.ServerMagic.length + NonceSize + TagSize + c.MinDNSPacketSize
      ∨ encrypted.length > c.ServerMagic.length + NonceSize + TagSize + c.MaxDNSPacketSize
      ∨ encrypted.take c.ServerMagic.length ≠ c.ServerMagic
  · rw [if_pos hbad]
    unfold Decrypt
    simp only [badSizeOrPrefix_eq, hbad, decide_True]
  · rw [if_neg hbad]
    have hlo : c.ServerMagic.length + NonceSize + TagSize + c.MinDNSPacketSize
        ≤ encrypted.length := by
      by_contra h
      exact hbad (Or.inl (by omega))
    have hhi : encrypted.length
        ≤ c.ServerMagic.length + NonceSize + TagSize + c.MaxDNSPacketSize := by
      by_contra h
      exact hbad (Or.inr (Or.inl (by omega)))
    have hp : encrypted.take c.ServerMagic.length = c.ServerMagic := by
      by_contra h
      exact hbad (Or.inr (Or.inr h))
    obtain ⟨sn, payload, hE, hsn, hlo2, hhi2, hsnE, hpE⟩ := frame_split c encrypted hlo hhi hp
    have h12 : (encrypted.drop c.ServerMagic.length).take HalfNonceSize
        = sn.take HalfNonceSize := by
      rw [hsnE, List.take_take]
      rfl
    rw [h12, ← hsnE, ← hpE]
    clear h12 hsnE hpE hp hlo hhi
    subst hE
    by_cases hn : nonce.length < HalfNonceSize
    · rw [if_pos hn]
      have hs2 : slice (c.ServerMagic ++ sn ++ payload) c.ServerMagic.length
          (c.ServerMagic.length + NonceSize) = some sn := by
        rw [← hsn]
        exact slice_mid _ _ _
      have hs3 : slice nonce 0 HalfNonceSize = none := by
        unfold slice
        rw [if_neg]
        intro h
        omega
      unfold Decrypt
      simp only [badSizeOrPrefix_frame c sn payload hsn hlo2 hhi2, hs2, hs3]
    · rw [if_neg hn]
      exact Decrypt_frame c box serverInfo sn payload nonce hsn (by omega) hlo2 hhi2

/-! ## The four failures of Decrypt -/

/-- C11: for every frame shorter than `len(ServerMagic) + NonceSize + TagSize +
MinDNSPacketSize`, or longer than `len(ServerMagic) + NonceSize + TagSize +
MaxDNSPacketSize`, or whose first `len(ServerMagic)` bytes are not
`ServerMagic`, Decrypt fails with "Invalid message size or prefix", whatever
the nonce and the key; that error is returned in these three cases only; in
particular it is returned for a frame one byte below the minimum and one byte
above the maximum. -/
theorem Decrypt_size_or_prefix (c : Consts) (box : AEAD) (serverInfo : ServerInfo)
    (encrypted nonce : List Byte) :
    ((encrypted.length < c.ServerMagic.length + NonceSize + TagSize + c.MinDNSPacketSize
          ∨ encrypted.length > c.ServerMagic.length + NonceSize + TagSize + c.MaxDNSPacketSize
          ∨ encrypted.take c.ServerMagic.length ≠ c.ServerMagic) →
        Decrypt c box serverInfo encrypted nonce
          = some (encrypted, some Err.invalidMessageSizeOrPrefix))
      ∧ (∀ r, Decrypt c box serverInfo encrypted nonce
            = some (r, some Err.invalidMessageSizeOrPrefix) →
          (encrypted.length < c.ServerMagic.length + NonceSize + TagSize + c.MinDNSPacketSize
            ∨ encrypted.length > c.ServerMagic.length + NonceSize + TagSize + c.MaxDNSPacketSize
            ∨ encrypted.take c.ServerMagic.length ≠ c.ServerMagic))
      ∧ (encrypted.length + 1
            = c.ServerMagic.length + NonceSize + TagSize + c.MinDNSPacketSize →
          Decrypt c box serverInfo encrypted nonce
            = some (encrypted, some Err.invalidMessageSizeOrPrefix))
      ∧ (encrypted.length
            = c.ServerMagic.length + NonceSize + TagSize + c.MaxDNSPacketSize + 1 →
          Decrypt c box serverInfo encrypted nonce
            = some (encrypted, some Err.invalidMessageSizeOrPrefix)) := by
  have hcases := Decrypt_cases c box serverInfo encrypted nonce
  refine ⟨?_, ?_, ?_, ?_⟩
  · intro hbad
    rw [hcases, if_pos hbad]
  · intro r hr
    by_contra hbad
    rw [hcases, if_neg hbad] at hr
    split at hr
    · cases hr
    · split at hr
      · cases hr
      · split at hr
        · cases hr
        · split at hr <;> cases hr
  · intro h
    rw [hcases, if_pos (Or.inl (by omega))]
  · intro h
    rw [hcases, if_pos (Or.inr (Or.inl (by omega)))]

/-- Decrypt on a frame that passes the test of crypto.go:66-68, with a nonce
argument of at least `HalfNonceSize` bytes. -/
theorem Decrypt_pass (c : Consts) (box : AEAD) (serverInfo : ServerInfo)
    (encrypted nonce : List Byte)
    (hlo : c.ServerMagic.length + NonceSize + TagSize + c.MinDNSPacketSize ≤ encrypted.length)
    (hhi : encrypted.length ≤ c.ServerMagic.length + NonceSize + TagSize + c.MaxDNSPacketSize)
    (hp : encrypted.take c.ServerMagic.length = c.ServerMagic)
    (hn : HalfNonceSize ≤ nonce.length) :
    Decrypt c box serverInfo encrypted nonce
      = if nonce.take HalfNonceSize
            ≠ (encrypted.drop c.ServerMagic.length).take HalfNonceSize then
          some (encrypted, some Err.unexpectedNonce)
        else
          match box.Open ((encrypted.drop c.ServerMagic.length).take NonceSize)
              (encrypted.drop (c.ServerMagic.length + NonceSize)) serverInfo.SharedKey with
          | none => some (encrypted, some Err.incorrectTag)
          | some packet =>
            if (unpad packet).2 ≠ none ∨ (unpad packet).1.length < c.MinDNSPacketSize then
              some (encrypted, some Err.incorrectPadding)
            else some ((unpad packet).1, none) := by
  have hbad : ¬ (encrypted.length
        < c.ServerMagic.length + NonceSize + TagSize + c.MinDNSPacketSize
      ∨ encrypted.length > c.ServerMagic.length + NonceSize + TagSize + c.MaxDNSPacketSize
      ∨ encrypted.take c.ServerMagic.length ≠ c.ServerMagic) := by
    intro h
    rcases h with h | h | h
    · omega
    · omega
    · exact h hp
  have hn2 : ¬ nonce.length < HalfNonceSize := by omega
  rw [Decrypt_cases, if_neg hbad, if_neg hn2]

/-- Two lists that differ at a position below `n` have different prefixes of
`n` elements. -/
theorem take_ne_of_getElem_ne (a b : List Byte) (n i : Nat) (hi : i < n)
    (h : a[i]? ≠ b[i]?) : a.take n ≠ b.take n := by
  intro heq
  apply h
  have h1 : (a.take n)[i]? = (b.take n)[i]? := by rw [heq]
  rw [List.getElem?_take_of_lt hi, List.getElem?_take_of_lt hi] at h1
  exact h1

/-- C12: for every frame that passes the size and prefix test and every client
nonce half of at least `HalfNonceSize` bytes: when the frame bytes at offsets
`len(ServerMagic) .. len(ServerMagic) + HalfNonceSize - 1` differ from the first
`HalfNonceSize` bytes of the nonce argument in at least one position, Decrypt
fails with "Unexpected nonce", whatever the AEAD; Decrypt returns that error
exactly when these two halves differ, so a frame that differs from this one
in other bytes only, the second half of the server nonce included, gets the
same verdict. -/
theorem Decrypt_unexpected_nonce (c : Consts) (box : AEAD) (serverInfo : ServerInfo)
    (encrypted nonce : List Byte)
    (hlo : c.ServerMagic.length + NonceSize + TagSize + c.MinDNSPacketSize ≤ encrypted.length)
    (hhi : encrypted.length ≤ c.ServerMagic.length + NonceSize + TagSize + c.MaxDNSPacketSize)
    (hp : encrypted.take c.ServerMagic.length = c.ServerMagic)
    (hn : HalfNonceSize ≤ nonce.length) :
    ((∃ i, i < HalfNonceSize ∧ encrypted[c.ServerMagic.length + i]? ≠ nonce[i]?) →
        ∀ box2 : AEAD, Decrypt c box2 serverInfo encrypted nonce
          = some (encrypted, some Err.unexpectedNonce))
      ∧ ((∃ r, Decrypt c box serverInfo encrypted nonce = some (r, some Err.unexpectedNonce))
          ↔ (encrypted.drop c.ServerMagic.length).take HalfNonceSize
              ≠ nonce.take HalfNonceSize)
      ∧ (∀ encrypted2 : List Byte,
          c.ServerMagic.length + NonceSize + TagSize + c.MinDNSPacketSize ≤ encrypted2.length →
          encrypted2.length
            ≤ c.ServerMagic.length + NonceSize + TagSize + c.MaxDNSPacketSize →
          encrypted2.take c.ServerMagic.length = c.ServerMagic →
          (encrypted2.drop c.ServerMagic.length).take HalfNonceSize
            = (encrypted.drop c.ServerMagic.length).take HalfNonceSize →
          ((∃ r, Decrypt c box serverInfo encrypted2 nonce
              = some (r, some Err.unexpectedNonce))
            ↔ (∃ r, Decrypt c box serverInfo encrypted nonce
              = some (r, some Err.unexpectedNonce)))) := by
  have hiff : ∀ (e2 : List Byte),
      c.ServerMagic.length + NonceSize + TagSize + c.MinDNSPacketSize ≤ e2.length →
      e2.length ≤ c.ServerMagic.length + NonceSize + TagSize + c.MaxDNSPacketSize →
      e2.take c.ServerMagic.length = c.ServerMagic →
      ((∃ r, Decrypt c box serverInfo e2 nonce = some (r, some Err.unexpectedNonce))
        ↔ (e2.drop c.ServerMagic.length).take HalfNonceSize ≠ nonce.take HalfNonceSize) := by
    intro e2 h1 h2 h3
    rw [Decrypt_pass c box serverInfo e2 nonce h1 h2 h3 hn]
    constructor
    · rintro ⟨r, hr⟩
      intro heq
      rw [if_neg (fun h => h heq.symm)] at hr
      split at hr
      · cases hr
      · split at hr <;> cases hr
    · intro hne
      rw [if_pos (fun h => hne h.symm)]
      exact ⟨e2, rfl⟩
  refine ⟨?_, hiff encrypted hlo hhi hp, ?_⟩
  · rintro ⟨i, hi, hne⟩ box2
    have hne2 : nonce.take HalfNonceSize
        ≠ (encrypted.drop c.ServerMagic.length).take HalfNonceSize := by
      apply take_ne_of_getElem_ne nonce (encrypted.drop c.ServerMagic.length) HalfNonceSize i hi
      rw [List.getElem?_drop]
      exact fun h => hne h.symm
    rw [Decrypt_pass c box2 serverInfo encrypted nonce hlo hhi hp hn, if_pos hne2]
  · intro e2 h1 h2 h3 h4
    rw [hiff e2 h1 h2 h3, hiff encrypted hlo hhi hp, h4]

theorem Decrypt_unexpected_nonce_witness :
    Decrypt sampleConsts plainBox sampleServer (sampleFrame rejectedPayload)
        (List.replicate HalfNonceSize 6)
      = some (sampleFrame rejectedPayload, some Err.unexpectedNonce) :=
  (Decrypt_unexpected_nonce sampleConsts plainBox sampleServer (sampleFrame rejectedPayload)
    (List.replicate HalfNonceSize 6) (by decide) (by decide) (by decide) (by decide)).1
    ⟨0, by decide, by decide⟩ plainBox

/-- C13: for every frame that passes the size and prefix test and the
nonce-half test: when the AEAD rejects (server nonce, frame[headerLen:],
SharedKey), Decrypt fails with "Incorrect tag" and returns the input frame
with it; the result is the same for every AEAD that rejects, so nothing in it
comes from the AEAD. -/
theorem Decrypt_incorrect_tag (c : Consts) (box : AEAD) (serverInfo : ServerInfo)
    (encrypted nonce : List Byte)
    (hlo : c.ServerMagic.length + NonceSize + TagSize + c.MinDNSPacketSize ≤ encrypted.length)
    (hhi : encrypted.length ≤ c.ServerMagic.length + NonceSize + TagSize + c.MaxDNSPacketSize)
    (hp : encrypted.take c.ServerMagic.length = c.ServerMagic)
    (hn : HalfNonceSize ≤ nonce.length)
    (hhalf : nonce.take HalfNonceSize
      = (encrypted.drop c.ServerMagic.length).take HalfNonceSize)
    (hrej : box.Open ((encrypted.drop c.ServerMagic.length).take NonceSize)
      (encrypted.drop (c.ServerMagic.length + NonceSize)) serverInfo.SharedKey = none) :
    Decrypt c box serverInfo encrypted nonce = some (encrypted, some Err.incorrectTag)
      ∧ (∀ box2 : AEAD,
          box2.Open ((encrypted.drop c.ServerMagic.length).take NonceSize)
            (encrypted.drop (c.ServerMagic.length + NonceSize)) serverInfo.SharedKey = none →
          Decrypt c box2 serverInfo encrypted nonce
            = Decrypt c box serverInfo encrypted nonce) := by
  have h1 : ∀ b : AEAD,
      b.Open ((encrypted.drop c.ServerMagic.length).take NonceSize)
        (encrypted.drop (c.ServerMagic.length + NonceSize)) serverInfo.SharedKey = none →
      Decrypt c b serverInfo encrypted nonce = some (encrypted, some Err.incorrectTag) := by
    intro b hb
    rw [Decrypt_pass c b serverInfo encrypted nonce hlo hhi hp hn,
      if_neg (fun h => h hhalf), hb]
  refine ⟨h1 box hrej, ?_⟩
  intro box2 h2
  rw [h1 box hrej, h1 box2 h2]

theorem Decrypt_incorrect_tag_witness :
    Decrypt sampleConsts plainBox sampleServer (sampleFrame rejectedPayload)
        (List.replicate HalfNonceSize 5)
      = some (sampleFrame rejectedPayload, some Err.incorrectTag) :=
  (Decrypt_incorrect_tag sampleConsts plainBox sampleServer (sampleFrame rejectedPayload)
    (List.replicate HalfNonceSize 5) (by decide) (by decide) (by decide) (by decide)
    (by decide) (by decide)).1

/-- C14: for every frame that passes the size and prefix test and the
nonce-half test and on which the AEAD opens to the plaintext `m`: Decrypt
fails with "Incorrect padding" if and only if `unpad m` fails or its result
has fewer than `MinDNSPacketSize` bytes; otherwise Decrypt returns the result
of `unpad m` with a nil error. -/
theorem Decrypt_padding (c : Consts) (box : AEAD) (serverInfo : ServerInfo)
    (encrypted nonce m : List Byte)
    (hlo : c.ServerMagic.length + NonceSize + TagSize + c.MinDNSPacketSize ≤ encrypted.length)
    (hhi : encrypted.length ≤ c.ServerMagic.length + NonceSize + TagSize + c.MaxDNSPacketSize)
    (hp : encrypted.take c.ServerMagic.length = c.ServerMagic)
    (hn : HalfNonceSize ≤ nonce.length)
    (hhalf : nonce.take HalfNonceSize
      = (encrypted.drop c.ServerMagic.length).take HalfNonceSize)
    (hopen : box.Open ((encrypted.drop c.ServerMagic.length).take NonceSize)
      (encrypted.drop (c.ServerMagic.length + NonceSize)) serverInfo.SharedKey = some m) :
    ((∃ r, Decrypt c box serverInfo encrypted nonce = some (r, some Err.incorrectPadding))
        ↔ ((unpad m).2 ≠ none ∨ (unpad m).1.length < c.MinDNSPacketSize))
      ∧ (¬ ((unpad m).2 ≠ none ∨ (unpad m).1.length < c.MinDNSPacketSize) →
          Decrypt c box serverInfo encrypted nonce = some ((unpad m).1, none)) := by
  have hD : Decrypt c box serverInfo encrypted nonce
      = if (unpad m).2 ≠ none ∨ (unpad m).1.length < c.MinDNSPacketSize then
          some (encrypted, some Err.incorrectPadding)
        else some ((unpad m).1, none) := by
    rw [Decrypt_pass c box serverInfo encrypted nonce hlo hhi hp hn,
      if_neg (fun h => h hhalf), hopen]
  constructor
  · constructor
    · rintro ⟨r, hr⟩
      by_contra hgood
      rw [hD, if_neg hgood] at hr
      cases hr
    · intro hbad
      rw [hD, if_pos hbad]
      exact ⟨encrypted, rfl⟩
  · intro hgood
    rw [hD, if_neg hgood]

theorem Decrypt_padding_witness :
    Decrypt sampleConsts plainBox sampleServer (sampleFrame paddedPayload)
        (List.replicate HalfNonceSize 5)
      = some ((unpad (List.replicate 17 1 ++ [0x80])).1, none) :=
  (Decrypt_padding sampleConsts plainBox sampleServer (sampleFrame paddedPayload)
    (List.replicate HalfNonceSize 5) (List.replicate 17 1 ++ [0x80])
    (by decide) (by decide) (by decide) (by decide) (by decide) (by decide)).2 (by decide)

/-- C15 (the claim fails): on the 3-byte frame `[1, 2, 3]` Decrypt fails with
"Invalid message size or prefix" and the slice it returns with the error is the
frame `[1, 2, 3]` itself, not the empty slice. -/
theorem Decrypt_error_returns_frame_counterexample :
    Decrypt sampleConsts plainBox sampleServer [1, 2, 3] []
        = some ([1, 2, 3], some Err.invalidMessageSizeOrPrefix)
      ∧ ¬ (∀ r e, Decrypt sampleConsts plainBox sampleServer [1, 2, 3] [] = some (r, some e) →
            r = []) := by
  have h : Decrypt sampleConsts plainBox sampleServer [1, 2, 3] []
      = some ([1, 2, 3], some Err.invalidMessageSizeOrPrefix) := by decide
  refine ⟨h, ?_⟩
  intro hall
  have h0 := hall [1, 2, 3] Err.invalidMessageSizeOrPrefix h
  exact absurd h0 (by decide)

/-- C15 (amended): for every input on which Decrypt fails, the error is one of
the four kinds and the slice returned with it is the input frame, unchanged:
no decrypted or unpadded byte is returned with an error. -/
theorem Decrypt_error_returns_frame (c : Consts) (box : AEAD) (serverInfo : ServerInfo)
    (encrypted nonce r : List Byte) (e : Err)
    (h : Decrypt c box serverInfo encrypted nonce = some (r, some e)) :
    r = encrypted
      ∧ (e = Err.invalidMessageSizeOrPrefix ∨ e = Err.unexpectedNonce
          ∨ e = Err.incorrectTag ∨ e = Err.incorrectPadding) := by
  rw [Decrypt_cases] at h
  split at h
  · cases h
    exact ⟨rfl, Or.inl rfl⟩
  · split at h
    · cases h
    · split at h
      · cases h
        exact ⟨rfl, Or.inr (Or.inl rfl)⟩
      · split at h
        · cases h
          exact ⟨rfl, Or.inr (Or.inr (Or.inl rfl))⟩
        · split at h
          · cases h
            exact ⟨rfl, Or.inr (Or.inr (Or.inr rfl))⟩
          · cases h

theorem Decrypt_error_returns_frame_witness :
    Decrypt sampleConsts plainBox sampleServer [1, 2, 3] []
        = some ([1, 2, 3], some Err.invalidMessageSizeOrPrefix)
      ∧ ([1, 2, 3] : List Byte) = [1, 2, 3]
      ∧ (Err.invalidMessageSizeOrPrefix = Err.invalidMessageSizeOrPrefix
          ∨ Err.invalidMessageSizeOrPrefix = Err.unexpectedNonce
          ∨ Err.invalidMessageSizeOrPrefix = Err.incorrectTag
          ∨ Err.invalidMessageSizeOrPrefix = Err.incorrectPadding) :=
  ⟨by decide,
    Decrypt_error_returns_frame sampleConsts plainBox sampleServer [1, 2, 3] [] [1, 2, 3]
      Err.invalidMessageSizeOrPrefix (by decide)⟩

/-! ## The size computation of Encrypt -/

/-- C16: on every path where Encrypt reaches `pad(packet, paddedLength -
ResponseOverhead)`, that is whenever the oversize check does not fail,
`paddedLength - ResponseOverhead ≥ len(packet) + 1 ≥ 1`, the padded plaintext
sealed in the frame has exactly `paddedLength - ResponseOverhead` bytes; this
for every value of the constants, and when `ResponseOverhead ≥
MaxDNSUDPPacketSize` Encrypt always fails with the oversize error and returns
no frame. -/
theorem Encrypt_pad_precondition (c : Consts) (box : AEAD) (proxy : Proxy)
    (serverInfo : ServerInfo) (packet : List Byte) (proto : String) (rnd : Nat → Byte) :
    ((Encrypt c box proxy serverInfo packet proto rnd).err = none →
        paddedLength c (minQuestionSize c proxy packet proto rnd) - (ResponseOverhead c : Int)
            ≥ (packet.length : Int) + 1
          ∧ (packet.length : Int) + 1 ≥ 1
          ∧ ((pad packet (paddedLength c (minQuestionSize c proxy packet proto rnd)
                - (ResponseOverhead c : Int))).length : Int)
              = paddedLength c (minQuestionSize c proxy packet proto rnd)
                - (ResponseOverhead c : Int)
          ∧ (Encrypt c box proxy serverInfo packet proto rnd).encrypted
              = serverInfo.MagicQuery ++ proxy.proxyPublicKey
                ++ randRead rnd 0 (make HalfNonceSize)
                ++ box.Seal (randRead rnd 0 (make HalfNonceSize)
                      ++ List.replicate HalfNonceSize 0)
                    (pad packet (paddedLength c (minQuestionSize c proxy packet proto rnd)
                      - (ResponseOverhead c : Int)))
                    serverInfo.SharedKey)
      ∧ ((ResponseOverhead c : Int) ≥ (c.MaxDNSUDPPacketSize : Int) →
          (Encrypt c box proxy serverInfo packet proto rnd).err = some Err.questionTooLarge
            ∧ (Encrypt c box proxy serverInfo packet proto rnd).encrypted = []) := by
  constructor
  · intro hok
    have hfit := (Encrypt_err_none_iff c box proxy serverInfo packet proto rnd).mp hok
    have hpl := pad_length_of_le packet
      (paddedLength c (minQuestionSize c proxy packet proto rnd) - (ResponseOverhead c : Int))
      (by linarith)
    refine ⟨by linarith, by omega, hpl, ?_⟩
    rw [Encrypt_fits c box proxy serverInfo packet proto rnd (not_lt.mpr hfit)]
  · intro hro
    have hP := paddedLength_le c (minQuestionSize c proxy packet proto rnd)
    have hbig : (ResponseOverhead c : Int) + (packet.length : Int) + 1
        > paddedLength c (minQuestionSize c proxy packet proto rnd) := by
      have hlen : (0 : Int) ≤ (packet.length : Int) := Int.ofNat_nonneg _
      linarith
    rw [Encrypt_too_large c box proxy serverInfo packet proto rnd hbig]
    exact ⟨rfl, rfl⟩

theorem roundUpTo64_least (x y : Int) (hy : (64 : Int) ∣ y) (hxy : x ≤ y) :
    roundUpTo64 x ≤ y := by
  unfold roundUpTo64
  omega

theorem roundUpTo64_of_dvd (x : Int) (hx : (64 : Int) ∣ x) : roundUpTo64 x = x := by
  unfold roundUpTo64
  omega

/-- C17: for every integer `x ≥ 0` for which `x + 63` does not overflow an
`int`, `(x + 63) & ^63` is the least multiple of 64 that is at least `x`: it
is divisible by 64, `x ≤ (x + 63) & ^63 < x + 64`, no multiple of 64 lies
between, and it is `x` itself when `x` is a multiple of 64. -/
theorem mask_is_round_up (x : Int) (h0 : 0 ≤ x) (h1 : x + 63 ≤ 9223372036854775807) :
    (64 : Int) ∣ andInt (wrapInt (x + 63)) (notInt 63)
      ∧ x ≤ andInt (wrapInt (x + 63)) (notInt 63)
      ∧ andInt (wrapInt (x + 63)) (notInt 63) < x + 64
      ∧ (∀ y : Int, (64 : Int) ∣ y → x ≤ y → andInt (wrapInt (x + 63)) (notInt 63) ≤ y)
      ∧ ((64 : Int) ∣ x → andInt (wrapInt (x + 63)) (notInt 63) = x) := by
  rw [andInt_wrapInt_roundUp x h0 h1]
  have hs := roundUpTo64_spec x
  exact ⟨hs.1, hs.2.1, hs.2.2, fun y hy hxy => roundUpTo64_least x y hy hxy,
    fun hx => roundUpTo64_of_dvd x hx⟩

theorem mask_is_round_up_witness :
    ((0 : Int) ≤ 68 ∧ (68 : Int) + 63 ≤ 9223372036854775807)
      ∧ (64 : Int) ∣ andInt (wrapInt (68 + 63)) (notInt 63)
      ∧ (68 : Int) ≤ andInt (wrapInt (68 + 63)) (notInt 63)
      ∧ andInt (wrapInt (68 + 63)) (notInt 63) < 68 + 64
      ∧ (∀ y : Int, (64 : Int) ∣ y → 68 ≤ y → andInt (wrapInt (68 + 63)) (notInt 63) ≤ y)
      ∧ ((64 : Int) ∣ 68 → andInt (wrapInt (68 + 63)) (notInt 63) = 68) :=
  ⟨by decide, mask_is_round_up 68 (by decide) (by decide)⟩

theorem Min_le_Min_right (a b d : Int) (h : b ≤ d) : Min a b ≤ Min a d := by
  unfold Min
  split <;> split <;> omega

theorem minQuestionSize_udp (c : Consts) (proxy : Proxy) (packet : List Byte)
    (rnd : Nat → Byte) :
    minQuestionSize c proxy packet "udp" rnd
      = Max proxy.questionSizeEstimator.MinQuestionSize
          ((ResponseOverhead c : Int) + (packet.length : Int)) := by
  unfold minQuestionSize
  simp only [if_true]

theorem minQuestionSize_not_udp (c : Consts) (proxy : Proxy) (packet : List Byte)
    (proto : String) (rnd : Nat → Byte) (h : proto ≠ "udp") :
    minQuestionSize c proxy packet proto rnd
      = (ResponseOverhead c : Int) + (packet.length : Int)
        + (((randRead rnd HalfNonceSize (make 1)).getD 0 0).toNat : Int) := by
  unfold minQuestionSize
  simp only [if_neg h]

/-- C18: on UDP the estimator's minimum is honoured: for every packet and
every estimator value `e`, `minQuestionSize = Max e (ResponseOverhead +
len(packet))`, and therefore `paddedLength ≥ Min MaxDNSUDPPacketSize e`; the
bound is stated for the values on which `+ 63` is computed without overflow,
`e ≤ 2^63 - 64` and `ResponseOverhead + len(packet) ≤ 2^63 - 64`, which holds
for every minimum question size an estimator delivers and every packet that
fits in memory. On any other transport hint two runs that differ in the
estimator only have the same `minQuestionSize`, the same `paddedLength` and
the same result. -/
theorem udp_estimator_honoured (c : Consts) (box : AEAD) (proxy : Proxy)
    (serverInfo : ServerInfo) (packet : List Byte) (rnd : Nat → Byte)
    (he : proxy.questionSizeEstimator.MinQuestionSize + 63 ≤ 9223372036854775807)
    (hl : (ResponseOverhead c : Int) + (packet.length : Int) + 63 ≤ 9223372036854775807) :
    minQuestionSize c proxy packet "udp" rnd
        = Max proxy.questionSizeEstimator.MinQuestionSize
            ((ResponseOverhead c : Int) + (packet.length : Int))
      ∧ paddedLength c (minQuestionSize c proxy packet "udp" rnd)
          ≥ Min (c.MaxDNSUDPPacketSize : Int) proxy.questionSizeEstimator.MinQuestionSize
      ∧ (∀ (proto : String) (proxy2 : Proxy), proto ≠ "udp" →
          proxy2.proxyPublicKey = proxy.proxyPublicKey →
          minQuestionSize c proxy2 packet proto rnd = minQuestionSize c proxy packet proto rnd
            ∧ paddedLength c (minQuestionSize c proxy2 packet proto rnd)
                = paddedLength c (minQuestionSize c proxy packet proto rnd)
            ∧ Encrypt c box proxy2 serverInfo packet proto rnd
                = Encrypt c box proxy serverInfo packet proto rnd) := by
  have hq := minQuestionSize_udp c proxy packet rnd
  refine ⟨hq, ?_, ?_⟩
  · rw [hq]
    have hro : (0 : Int) ≤ (ResponseOverhead c : Int) := Int.ofNat_nonneg _
    have hlen : (0 : Int) ≤ (packet.length : Int) := Int.ofNat_nonneg _
    have hm1 := le_Max_left proxy.questionSizeEstimator.MinQuestionSize
      ((ResponseOverhead c : Int) + (packet.length : Int))
    have hm2 : Max proxy.questionSizeEstimator.MinQuestionSize
        ((ResponseOverhead c : Int) + (packet.length : Int)) ≤ 9223372036854775807 - 63 :=
      Max_le _ _ _ (by linarith) (by linarith)
    have hx1 := le_Max_left (Max proxy.questionSizeEstimator.MinQuestionSize
      ((ResponseOverhead c : Int) + (packet.length : Int))) (ResponseOverhead c : Int)
    have hx2 := le_Max_right (Max proxy.questionSizeEstimator.MinQuestionSize
      ((ResponseOverhead c : Int) + (packet.length : Int))) (ResponseOverhead c : Int)
    have hx3 : Max (Max proxy.questionSizeEstimator.MinQuestionSize
        ((ResponseOverhead c : Int) + (packet.length : Int))) (ResponseOverhead c : Int)
        ≤ 9223372036854775807 - 63 := Max_le _ _ _ hm2 (by linarith)
    unfold paddedLength
    rw [andInt_wrapInt_roundUp _ (le_trans hro hx2) (by linarith)]
    have hr := (roundUpTo64_spec (Max (Max proxy.questionSizeEstimator.MinQuestionSize
      ((ResponseOverhead c : Int) + (packet.length : Int))) (ResponseOverhead c : Int))).2.1
    exact Min_le_Min_right _ _ _ (by linarith)
  · intro proto proxy2 hproto hpk
    have hq2 : minQuestionSize c proxy2 packet proto rnd
        = minQuestionSize c proxy packet proto rnd := by
      rw [minQuestionSize_not_udp c proxy2 packet proto rnd hproto,
        minQuestionSize_not_udp c proxy packet proto rnd hproto]
    refine ⟨hq2, by rw [hq2], ?_⟩
    unfold Encrypt
    simp only [hq2, hpk]

theorem udp_estimator_honoured_witness :
    minQuestionSize sampleConsts midProxy (List.replicate 20 1) "udp" sampleRand
        = Max midProxy.questionSizeEstimator.MinQuestionSize
            ((ResponseOverhead sampleConsts : Int) + ((List.replicate 20 1 : List Byte).length : Int))
      ∧ paddedLength sampleConsts
            (minQuestionSize sampleConsts midProxy (List.replicate 20 1) "udp" sampleRand)
          ≥ Min (sampleConsts.MaxDNSUDPPacketSize : Int)
              midProxy.questionSizeEstimator.MinQuestionSize :=
  ⟨(udp_estimator_honoured sampleConsts plainBox midProxy sampleServer (List.replicate 20 1)
      sampleRand (by decide) (by decide)).1,
    (udp_estimator_honoured sampleConsts plainBox midProxy sampleServer (List.replicate 20 1)
      sampleRand (by decide) (by decide)).2.1⟩

/-! ## Totality of Decrypt and the size of what it returns -/

/-- C19: for every frame of any length and every nonce argument of at least
`HalfNonceSize` bytes, Decrypt does not panic; a frame that fails the length
test is rejected with the same result whatever the nonce argument, a short one
included, and without the prefix slice being taken, which for a frame shorter
than `ServerMagic` would be out of range; once the length test has passed, the
prefix slice, the server-nonce slice and the payload slice are in range. -/
theorem Decrypt_total (c : Consts) (box : AEAD) (serverInfo : ServerInfo)
    (encrypted nonce : List Byte) :
    (HalfNonceSize ≤ nonce.length → Decrypt c box serverInfo encrypted nonce ≠ none)
      ∧ ((encrypted.length < c.ServerMagic.length + NonceSize + TagSize + c.MinDNSPacketSize
            ∨ encrypted.length
              > c.ServerMagic.length + NonceSize + TagSize + c.MaxDNSPacketSize) →
          ∀ nonce2 : List Byte, Decrypt c box serverInfo encrypted nonce2
            = some (encrypted, some Err.invalidMessageSizeOrPrefix))
      ∧ (encrypted.length < c.ServerMagic.length →
          slice encrypted 0 c.ServerMagic.length = none
            ∧ Decrypt c box serverInfo encrypted nonce
              = some (encrypted, some Err.invalidMessageSizeOrPrefix))
      ∧ (c.ServerMagic.length + NonceSize + TagSize + c.MinDNSPacketSize ≤ encrypted.length →
          slice encrypted 0 c.ServerMagic.length ≠ none
            ∧ slice encrypted c.ServerMagic.length (c.ServerMagic.length + NonceSize) ≠ none
            ∧ slice encrypted (c.ServerMagic.length + NonceSize) encrypted.length ≠ none
            ∧ slice (encrypted.drop c.ServerMagic.length |>.take NonceSize) 0 HalfNonceSize
                ≠ none) := by
  refine ⟨?_, ?_, ?_, ?_⟩
  · intro hn
    have hn2 : ¬ nonce.length < HalfNonceSize := by omega
    rw [Decrypt_cases]
    by_cases hbad : encrypted.length
          < c.ServerMagic.length + NonceSize + TagSize + c.MinDNSPacketSize
        ∨ encrypted.length > c.ServerMagic.length + NonceSize + TagSize + c.MaxDNSPacketSize
        ∨ encrypted.take c.ServerMagic.length ≠ c.ServerMagic
    · rw [if_pos hbad]
      exact fun h => by cases h
    · rw [if_neg hbad, if_neg hn2]
      split
      · exact fun h => by cases h
      · split
        · exact fun h => by cases h
        · split <;> exact fun h => by cases h
  · intro hbad nonce2
    have hb : encrypted.length
          < c.ServerMagic.length + NonceSize + TagSize + c.MinDNSPacketSize
        ∨ encrypted.length > c.ServerMagic.length + NonceSize + TagSize + c.MaxDNSPacketSize
        ∨ encrypted.take c.ServerMagic.length ≠ c.ServerMagic := by
      rcases hbad with h | h
      · exact Or.inl h
      · exact Or.inr (Or.inl h)
    rw [Decrypt_cases, if_pos hb]
  · intro hshort
    constructor
    · unfold slice
      rw [if_neg]
      intro h
      omega
    · rw [Decrypt_cases, if_pos (Or.inl (by omega))]
  · intro hlo
    have hN : NonceSize = 24 := rfl
    have hH : HalfNonceSize = 12 := rfl
    refine ⟨?_, ?_, ?_, ?_⟩
    · unfold slice
      rw [if_pos ⟨Nat.zero_le _, by omega⟩]
      exact fun h => by cases h
    · unfold slice
      rw [if_pos ⟨by omega, by omega⟩]
      exact fun h => by cases h
    · unfold slice
      rw [if_pos ⟨by omega, Nat.le_refl _⟩]
      exact fun h => by cases h
    · unfold slice
      rw [if_pos ⟨Nat.zero_le _, by rw [List.length_take, List.length_drop]; omega⟩]
      exact fun h => by cases h

theorem plainBox_Open_length (n b k m : List Byte) (h : plainBox.Open n b k = some m) :
    m.length + TagSize = b.length := by
  unfold plainBox at h
  simp only at h
  split at h
  · rename_i hc
    cases h
    rw [List.length_take]
    omega
  · cases h

/-- C20: when the AEAD, on success, returns a plaintext exactly `TagSize`
bytes shorter than its input, every packet `p` that Decrypt returns with a
nil error has `MinDNSPacketSize ≤ len(p) ≤ MaxDNSPacketSize - 1` and `len(p) ≤
len(frame) - len(ServerMagic) - NonceSize - TagSize - 1`. -/
theorem Decrypt_ok_length (c : Consts) (box : AEAD) (serverInfo : ServerInfo)
    (encrypted nonce p : List Byte)
    (hopen : ∀ n b k m, box.Open n b k = some m → m.length + TagSize = b.length)
    (h : Decrypt c box serverInfo encrypted nonce = some (p, none)) :
    c.MinDNSPacketSize ≤ p.length
      ∧ p.length + 1 ≤ c.MaxDNSPacketSize
      ∧ p.length + c.ServerMagic.length + NonceSize + TagSize + 1 ≤ encrypted.length := by
  rw [Decrypt_cases] at h
  split at h
  · cases h
  · rename_i hbad
    split at h
    · cases h
    · split at h
      · cases h
      · split at h
        · cases h
        · rename_i m hm
          split at h
          · cases h
          · rename_i hgood
            have hu : unpad m = (p, none) := by
              have h1 : (unpad m).1 = p := by
                cases h
                rfl
              have h2 : (unpad m).2 = none := by
                by_contra hne
                exact hgood (Or.inl hne)
              exact Prod.ext h1 h2
            obtain ⟨k, hk⟩ := unpad_ok_form m p hu
            have hml := hopen _ _ _ _ hm
            have hlen : m.length = p.length + 1 + k := by
              rw [hk]
              simp only [List.length_append, List.length_cons, List.length_replicate]
              omega
            have hpl : ¬ p.length < c.MinDNSPacketSize := by
              intro hlt
              apply hgood
              right
              rw [hu]
              exact hlt
            rw [List.length_drop] at hml
            have hhi : ¬ encrypted.length
                > c.ServerMagic.length + NonceSize + TagSize + c.MaxDNSPacketSize :=
              fun hh => hbad (Or.inr (Or.inl hh))
            have hlo : ¬ encrypted.length
                < c.ServerMagic.length + NonceSize + TagSize + c.MinDNSPacketSize :=
              fun hh => hbad (Or.inl hh)
            refine ⟨by omega, by omega, by omega⟩

set_option maxRecDepth 20000 in
theorem Decrypt_ok_length_witness :
    Decrypt sampleConsts plainBox sampleServer (sampleFrame paddedPayload)
        (List.replicate HalfNonceSize 5) = some (List.replicate 17 1, none)
      ∧ sampleConsts.MinDNSPacketSize ≤ (List.replicate 17 1 : List Byte).length
      ∧ (List.replicate 17 1 : List Byte).length + 1 ≤ sampleConsts.MaxDNSPacketSize
      ∧ (List.replicate 17 1 : List Byte).length + sampleConsts.ServerMagic.length + NonceSize
          + TagSize + 1 ≤ (sampleFrame paddedPayload).length :=
  ⟨by decide,
    Decrypt_ok_length sampleConsts plainBox sampleServer (sampleFrame paddedPayload)
      (List.replicate HalfNonceSize 5) (List.replicate 17 1) plainBox_Open_length (by decide)⟩

end DNSCrypt
